import Mathlib

/-!
Shallow embedding of the mvloader core (src/mvloader/anatomical_coords.py and
src/mvloader/volume.py) in Lean 4, together with theorems settling the frozen
claims about the natural-language specification of the repository.

Modelling conventions:
* Python strings are `List Char`; `str.upper()` is `upperL` (an explicit
  ASCII table, which agrees with Python on every character that occurs in
  anatomical labels).
* Numpy float arithmetic on the small integer matrices of this library is
  modelled exactly over `ℚ` (respectively `ℤ` for integer matrices).  In
  particular `np.linalg.det` is the exact determinant, and comparisons of
  `|x| / norm` values are modelled by comparisons of their squares
  (`x ↦ x^2` is strictly monotone on the nonnegative reals, so every
  comparison made by the code is preserved exactly).  Voxel spacings (column
  norms, i.e. square roots of rationals) are stored as their squares; the
  real-valued spacing is uniquely determined by the stored square.
* A raised Python exception is an `Except.error` / `Option.none`; mutation of
  a `Volume` object is explicit state passing, and a method that mutates some
  fields and then raises returns the partially mutated state together with
  the error, exactly mirroring the source's assignment order.
-/

/-- Python exception kinds raised by the embedded code. -/
inductive Err : Type
  | labelError      -- ValueError from str.index (missing anatomical letter)
  | indexError      -- IndexError from indexing a numpy matrix out of range
  | invalidMatrix   -- ValueError from validate_permutation_matrix / validate_transformation_matrix
  | sliceStepZero   -- ValueError: slice step cannot be zero
  | transposeError  -- ValueError from np.transpose (repeated / out-of-range axis)
  | singularMatrix  -- numpy.linalg.LinAlgError from np.linalg.inv
  deriving DecidableEq, Repr

abbrev Label : Type := List Char

abbrev Mat3 (R : Type) : Type := Matrix (Fin 3) (Fin 3) R

abbrev Mat4 (R : Type) : Type := Matrix (Fin 4) (Fin 4) R

/-- The ASCII lowercase-to-uppercase table of Python's `str.upper()`. -/
def upTable : List (Char × Char) :=
  [('a','A'), ('b','B'), ('c','C'), ('d','D'), ('e','E'), ('f','F'), ('g','G'),
   ('h','H'), ('i','I'), ('j','J'), ('k','K'), ('l','L'), ('m','M'), ('n','N'),
   ('o','O'), ('p','P'), ('q','Q'), ('r','R'), ('s','S'), ('t','T'), ('u','U'),
   ('v','V'), ('w','W'), ('x','X'), ('y','Y'), ('z','Z')]

/-- Python's `str.upper()` on a single character, as an explicit ASCII table
(agrees with CPython on every character that occurs in anatomical labels). -/
def pyToUpper (c : Char) : Char :=
  ((upTable.find? fun p => p.1 = c).map Prod.snd).getD c

/-- Python's `str.upper()` on a whole string. -/
def upperL (l : Label) : Label := l.map pyToUpper

/-- `opposites()` from anatomical_coords.py: the fixed anatomical-opposite
lookup.  The Python dict raises `KeyError` on other keys; the code only ever
looks up one of the six letters, so the out-of-table value is irrelevant and
we return the character itself. -/
def opposites (c : Char) : Char :=
  if c = 'R' then 'L' else if c = 'A' then 'P' else if c = 'S' then 'I'
  else if c = 'L' then 'R' else if c = 'P' then 'A' else if c = 'I' then 'S'
  else c

/-- `index(system, character)` from anatomical_coords.py: the index of the
given character or of its anatomical opposite in the given string, `none`
modelling the `ValueError` raised by `str.index` when neither occurs. -/
def index (system : Label) (character : Char) : Option ℕ :=
  let sysU := upperL system
  let c := pyToUpper character
  match sysU.findIdx? (fun x => x = c) with
  | some i => some i
  | none => sysU.findIdx? (fun x => x = opposites c)

/-- `pos(system)` from anatomical_coords.py: the positions of R/L, A/P and S/I
in the given string (the first failing `index` call raises). -/
def pos (system : Label) : Option (ℕ × ℕ × ℕ) :=
  do
    let rl ← index system 'R'
    let ap ← index system 'A'
    let si ← index system 'S'
    pure (rl, ap, si)

/-- `permutation_matrix(src, dst)` from anatomical_coords.py.  Returns the pair
`(src2dst, dst2src) = (mat, mat.T)`; a missing anatomical letter raises
`ValueError` (`Err.labelError`), and a position `≥ 3` (possible only for
labels longer than three characters) would make the numpy assignment
`mat[dst_pos[i], src_pos[i]] = ±1` raise `IndexError`.  The three assignments
are sequential, so a later axis overwrites an earlier one on (impossible for
parsable labels) collisions: the if-chain below therefore tests the S axis
first and the R axis last. -/
def permutation_matrix (src dst : Label) : Except Err (Mat3 ℤ × Mat3 ℤ) :=
  let srcU := upperL src
  let dstU := upperL dst
  match pos srcU with
  | none => .error .labelError
  | some sp =>
    match pos dstU with
    | none => .error .labelError
    | some dp =>
      if sp.1 < 3 ∧ sp.2.1 < 3 ∧ sp.2.2 < 3 ∧ dp.1 < 3 ∧ dp.2.1 < 3 ∧ dp.2.2 < 3 then
        let valAt : ℕ → ℕ → ℤ := fun dpi spi =>
          if dstU.getD dpi ' ' ≠ srcU.getD spi ' ' then -1 else 1
        let mat : Mat3 ℤ := Matrix.of fun r c =>
          if (r : ℕ) = dp.2.2 ∧ (c : ℕ) = sp.2.2 then valAt dp.2.2 sp.2.2
          else if (r : ℕ) = dp.2.1 ∧ (c : ℕ) = sp.2.1 then valAt dp.2.1 sp.2.1
          else if (r : ℕ) = dp.1 ∧ (c : ℕ) = sp.1 then valAt dp.1 sp.1
          else 0
        .ok (mat, mat.transpose)
      else .error .indexError

/-- Exact 3×3 determinant (the embedding of `np.linalg.det` on the small
matrices of this library, idealized to exact arithmetic). -/
def det3 {R : Type} [CommRing R] (M : Mat3 R) : R :=
  M 0 0 * (M 1 1 * M 2 2 - M 1 2 * M 2 1)
    - M 0 1 * (M 1 0 * M 2 2 - M 1 2 * M 2 0)
    + M 0 2 * (M 1 0 * M 2 1 - M 1 1 * M 2 0)

/-- `validate_permutation_matrix(perm)` from anatomical_coords.py, as a
Boolean: `true` means the function returns normally, `false` that it raises
`ValueError`.  It checks only `|det| == 1` and that every entry is in
`{-1, 0, 1}`. -/
def validate_permutation_matrix (perm : Mat3 ℤ) : Bool :=
  decide ((det3 perm).natAbs = 1) &&
    decide (∀ i j : Fin 3, perm i j = -1 ∨ perm i j = 0 ∨ perm i j = 1)

/-- Sum of a column of a 3×3 integer matrix (`np.sum(perm, axis=0)`). -/
def colSum (P : Mat3 ℤ) (j : Fin 3) : ℤ := P 0 j + P 1 j + P 2 j

/-- Squared Euclidean norm of column `j` of a 3×3 rational matrix
(`np.linalg.norm(trans, axis=0)[j] ** 2`). -/
def colNormSq (t : Mat3 ℚ) (j : Fin 3) : ℚ :=
  t 0 j ^ 2 + t 1 j ^ 2 + t 2 j ^ 2

/-- Squared rotational part of a 4×4 matrix (`mat[:-1, :-1]`). -/
def rotPart (M : Mat4 ℚ) : Mat3 ℚ :=
  Matrix.of fun i j => M i.castSucc j.castSucc

/-- `validate_transformation_matrix(mat, tol)` from anatomical_coords.py, as a
Boolean (`true` = returns normally).  The code divides each column of the
rotational part by its Euclidean norm and requires the absolute determinant
`v = |det| / (‖c0‖·‖c1‖·‖c2‖)` of the result to satisfy
`1 - tol ≤ v ≤ 1 + tol`; with all squared norms positive this is equivalent
to the squared comparisons below, and with some squared norm zero the numpy
computation produces NaN whose comparisons are false, matched by the
`0 < p` conjunct.  The last-row checks are exact. -/
def validate_transformation_matrix (mat : Mat4 ℚ) (tol : ℚ) : Bool :=
  let rp := rotPart mat
  let d := det3 rp
  let p := colNormSq rp 0 * colNormSq rp 1 * colNormSq rp 2
  (decide (0 < p) &&
    (decide (1 - tol ≤ 0) || decide ((1 - tol) ^ 2 * p ≤ d ^ 2)) &&
    decide (d ^ 2 ≤ (1 + tol) ^ 2 * p)) &&
  decide (mat 3 0 = 0 ∧ mat 3 1 = 0 ∧ mat 3 2 = 0) &&
  decide (mat 3 3 = 1)

/-- Integer sign of a rational number (`np.sign`). -/
def intSign (x : ℚ) : ℤ :=
  if 0 < x then 1 else if x < 0 then -1 else 0

/-- A cell of a 3×3 matrix. -/
abbrev Cell : Type := Fin 3 × Fin 3

/-- The cells of a 3×3 matrix in row-major (C) order, the order in which
`np.argmax` scans the flattened array. -/
def rowMajorCells : List Cell :=
  [(0, 0), (0, 1), (0, 2), (1, 0), (1, 1), (1, 2), (2, 0), (2, 1), (2, 2)]

/-- First cell of maximal value in the given list (ties resolved to the
earliest cell, exactly as `np.argmax` resolves them in flattened row-major
order). -/
def selectMax (val : Cell → ℚ) (c : Cell) (cs : List Cell) : Cell :=
  cs.foldl (fun best x => if val best < val x then x else best) c

/-- The masked greedy loop of `find_closest_permutation_matrix`: repeatedly
take the unmasked cell of maximal value, write the sign of the original entry
there, and mask its row and column.  The `while np.sum(~mask) > 0` loop of the
source removes at least the selected cell per iteration, so a fuel of 9
(the number of cells) is enough for the loop to run to completion. -/
def greedyAux (val : Cell → ℚ) (sgn : Cell → ℤ) :
    ℕ → List Cell → Mat3 ℤ → Mat3 ℤ
  | 0, _, acc => acc
  | _ + 1, [], acc => acc
  | fuel + 1, c :: cs, acc =>
    let m := selectMax val (c :: cs).head! cs
    greedyAux val sgn fuel
      ((c :: cs).filter fun x => decide (x.1 ≠ m.1) && decide (x.2 ≠ m.2))
      (Matrix.of fun i j => if i = m.1 ∧ j = m.2 then sgn m else acc i j)

/-- The value `(|trans[i,j]| / ‖column j‖)²` compared by the greedy loop.
Squaring is strictly monotone on nonnegative reals, so all comparisons agree
with the source's float comparisons of `|trans[i,j]| / ‖column j‖` (column
norms are positive for every matrix this library feeds in). -/
def greedyVal (t : Mat3 ℚ) (c : Cell) : ℚ :=
  t c.1 c.2 ^ 2 / colNormSq t c.2

/-- `find_closest_permutation_matrix(trans)` from anatomical_coords.py
(the active, masked-array version). -/
def find_closest_permutation_matrix (t : Mat3 ℚ) : Mat3 ℤ :=
  greedyAux (greedyVal t) (fun c => intSign (t c.1 c.2)) 9 rowMajorCells 0

/-- A dense 3-dimensional array: a shape and the samples, indexed by index
vectors.  Values outside the shape are irrelevant; array equality is
`Arr3.eqv` (same shape, same samples at every in-bounds index vector). -/
@[ext]
structure Arr3 (α : Type) : Type where
  shape : Fin 3 → ℕ
  data : (Fin 3 → ℕ) → α

/-- Element-for-element equality of two 3-dimensional arrays. -/
def Arr3.eqv {α : Type} (a b : Arr3 α) : Prop :=
  a.shape = b.shape ∧
    ∀ v : Fin 3 → ℕ, (∀ m : Fin 3, v m < a.shape m) → a.data v = b.data v

/-- Executable element-for-element equality of two 3-dimensional arrays. -/
def Arr3.eqvB {α : Type} [DecidableEq α] (a b : Arr3 α) : Bool :=
  decide (a.shape = b.shape) &&
    ((List.range (a.shape 0)).all fun i =>
      (List.range (a.shape 1)).all fun j =>
        (List.range (a.shape 2)).all fun k =>
          decide (a.data ![i, j, k] = b.data ![i, j, k]))

/-- Length of the Python slice `[::s]` of an axis of length `n` (`s ≠ 0`). -/
def sliceCount (s : ℤ) (n : ℕ) : ℕ := (n + s.natAbs - 1) / s.natAbs

/-- Source index selected by the Python slice `[::s]` at new index `k` on an
axis of length `n`: `k*s` for positive step, `n-1-k*|s|` for negative step. -/
def mapIdx (s : ℤ) (n : ℕ) (k : ℕ) : ℕ :=
  if 0 < s then k * s.toNat else n - 1 - k * (-s).toNat

/-- Convert an integer in `{0, 1, 2}` to `Fin 3` (used after the transpose
axis vector has been bounds-checked). -/
def finOfZ (z : ℤ) : Fin 3 :=
  if z = 1 then 1 else if z = 2 then 2 else 0

/-- The axis vector `np.abs(perm) @ [0, 1, 2]` computed by `swap` before
transposing. -/
def pvZ (perm : Mat3 ℤ) (k : Fin 3) : ℤ :=
  ((perm k 0).natAbs : ℤ) * 0 + ((perm k 1).natAbs : ℤ) * 1 +
    ((perm k 2).natAbs : ℤ) * 2

/-- `swap(volume, perm)` from anatomical_coords.py for a 3-dimensional array
and a 3×3 permutation matrix: validate, then flip axes according to the
column sums (numpy slicing with step `inv[j]`, raising if a step is zero),
then permute axes by `np.abs(perm) @ [0,1,2]` (`np.transpose` raising on a
repeated or out-of-range axis). -/
def swap {α : Type} (volume : Arr3 α) (perm : Mat3 ℤ) : Except Err (Arr3 α) :=
  if validate_permutation_matrix perm = false then .error .invalidMatrix
  else
    let inv : Fin 3 → ℤ := fun j => colSum perm j
    if inv 0 = 0 ∨ inv 1 = 0 ∨ inv 2 = 0 then .error .sliceStepZero
    else
      let flipped : Arr3 α :=
        { shape := fun j => sliceCount (inv j) (volume.shape j)
          data := fun v => volume.data fun j => mapIdx (inv j) (volume.shape j) (v j) }
      let pv : Fin 3 → ℤ := pvZ perm
      if ¬ (pv 0 < 3 ∧ pv 1 < 3 ∧ pv 2 < 3 ∧ pv 0 ≠ pv 1 ∧ pv 0 ≠ pv 2 ∧ pv 1 ≠ pv 2) then
        .error .transposeError
      else
        let τ : Fin 3 → Fin 3 := fun k => finOfZ (pv k)
        let τinv : Fin 3 → Fin 3 := fun m =>
          if τ 0 = m then 0 else if τ 1 = m then 1 else 2
        .ok { shape := fun k => flipped.shape (τ k)
              data := fun v => flipped.data fun m => v (τinv m) }

/-- Cast a 3×3 integer matrix to a rational matrix. -/
def castM3 (M : Mat3 ℤ) : Mat3 ℚ := M.map fun x => (x : ℚ)

/-- Cast a 4×4 integer matrix to a rational matrix. -/
def castM4 (M : Mat4 ℤ) : Mat4 ℚ := M.map fun x => (x : ℚ)

/-- Upper-left 3×3 block of a 4×4 integer matrix (`perm[:3, :3]`). -/
def crop3 (M : Mat4 ℤ) : Mat3 ℤ := Matrix.of fun i j => M i.castSucc j.castSucc

/-- Modelled from the spec: `homogeneousForm(perm3x3)` (called
`ac.homogeneous_matrix` by volume.py) is missing from this repository's
anatomical_coords.py; per spec §4.1 it embeds a 3×3 signed permutation matrix
as the rotational part of a 4×4 homogeneous affine. -/
def homogeneous_matrix (P : Mat3 ℤ) : Mat4 ℤ :=
  Matrix.of fun r c =>
    if hr : (r : ℕ) < 3 then
      if hc : (c : ℕ) < 3 then P ⟨r, hr⟩ ⟨c, hc⟩ else 0
    else if (c : ℕ) = 3 then 1 else 0

/-- Modelled from the spec: `offset(perm3x3, shape)` (called `ac.offset` by
volume.py) is missing from this repository's anatomical_coords.py; per spec
§4.1 every axis flagged for reflection (column sum `-1`) contributes a
translation of `size - 1` so that, after composing
`homogeneous_matrix(perm) @ offset(perm, shape)` as volume.py does, the
transformed reflected indices remain within `[0, size-1]`.  That fixes the
translation in source-index space to `1 - size` on each reflected axis. -/
def offset (perm : Mat3 ℤ) (shape : Fin 3 → ℕ) : Mat4 ℤ :=
  Matrix.of fun r c =>
    if r = c then 1
    else if h : (c : ℕ) = 3 ∧ (r : ℕ) < 3 then
      if colSum perm ⟨r, h.2⟩ = -1 then 1 - (shape ⟨r, h.2⟩ : ℤ) else 0
    else 0

/-- Modelled from the spec: `transformation_for_new_coordinate_system` is
missing from this repository's anatomical_coords.py; per spec §4.2 step 6 it
is `homogeneous(sold2snew) @ trans`. -/
def transformation_for_new_coordinate_system (trans : Mat4 ℚ) (sold2snew : Mat3 ℤ) : Mat4 ℚ :=
  castM4 (homogeneous_matrix sold2snew) * trans

/-- Modelled from the spec: `transformation_for_new_voxel_alignment` is
missing from this repository's anatomical_coords.py; per spec §4.2 step 6 it
is `trans @ vnew2vold`. -/
def transformation_for_new_voxel_alignment (trans : Mat4 ℚ) (vnew2vold : Mat4 ℚ) : Mat4 ℚ :=
  trans * vnew2vold

/-- `np.linalg.inv` on a 4×4 integer matrix, idealized to exact rational
arithmetic: `none` models the `LinAlgError` raised on a singular matrix. -/
def inv4 (M : Mat4 ℤ) : Option (Mat4 ℚ) :=
  let Mq := castM4 M
  if Mq.det = 0 then none else some (Mq.det⁻¹ • Mq.adjugate)

/-- The state of a `Volume` instance (volume.py).  Field names follow the
private attributes of the class; voxel spacings are stored as squared column
norms (see the conventions at the top of the file); the opaque `src_object`
reference is not modelled (no claim concerns it). -/
structure Volume (α : Type) : Type where
  src_system : Label
  user_system : Option Label
  vsrc2csrc_4x4 : Mat4 ℚ
  src_volume : Arr3 α
  src_spacing_sq : Fin 3 → ℚ
  vsrc2cuser_4x4 : Mat4 ℚ
  aligned_spacing_sq : Fin 3 → ℚ
  aligned_volume : Arr3 α
  vuser2cuser_4x4 : Mat4 ℚ
  vsrc2vuser_4x4 : Mat4 ℤ
  vuser2vsrc_4x4 : Mat4 ℚ

/-- `Volume.__on_system_change(new_system)` from volume.py: each record
update below mirrors one field assignment of the source, in source order, so
that an exception raised part-way leaves exactly the fields assigned so far
mutated.  The source stores the historical tuple-returning
`ac.permutation_matrix` result where a single matrix is used; following spec
§4.2 step 2 and the §9 note on the two divergent historical versions, the
forward (`src2dst`) matrix is taken. -/
def onSystemChange {α : Type} (v : Volume α) (new_system : Label) : Volume α × Option Err :=
  let v1 := { v with user_system := some new_system }
  let vsrc2ssrc := find_closest_permutation_matrix (rotPart v.vsrc2csrc_4x4)
  match permutation_matrix v.src_system new_system with
  | .error e => (v1, some e)
  | .ok pmPair =>
    let ssrc2suser := pmPair.1
    let vsrc2suser := ssrc2suser * vsrc2ssrc
    let off := offset vsrc2suser v.src_volume.shape
    let vsrc2vuser := homogeneous_matrix vsrc2suser * off
    let v2 := { v1 with vsrc2vuser_4x4 := vsrc2vuser }
    match inv4 vsrc2vuser with
    | none => (v2, some .singularMatrix)
    | some vuser2vsrc =>
      let v3 := { v2 with vuser2vsrc_4x4 := vuser2vsrc }
      let vsrc2cuser := transformation_for_new_coordinate_system v.vsrc2csrc_4x4 ssrc2suser
      let v4 := { v3 with vsrc2cuser_4x4 := vsrc2cuser }
      let vuser2cuser := transformation_for_new_voxel_alignment vsrc2cuser vuser2vsrc
      let v5 := { v4 with vuser2cuser_4x4 := vuser2cuser }
      let v6 := { v5 with src_spacing_sq := fun j => colNormSq (rotPart v.vsrc2csrc_4x4) j }
      let v7 := { v6 with aligned_spacing_sq := fun j => colNormSq (rotPart vuser2cuser) j }
      match swap v.src_volume (crop3 vsrc2vuser) with
      | .error e => (v7, some e)
      | .ok aligned => ({ v7 with aligned_volume := aligned }, none)

/-- The `Volume.system` property setter from volume.py: uppercase the new
value and recompute only when it differs from the stored value.  The returned
pair is the post-call state of the object together with the exception raised,
if any. -/
def setSystem {α : Type} (v : Volume α) (value : Label) : Volume α × Option Err :=
  let new_system := upperL value
  if v.user_system = some new_system then (v, none)
  else onSystemChange v new_system

/-- `Volume.__init__` from volume.py: validate the source transformation,
then let the `system` setter initialize the remaining fields (the stored
`__user_system` starts as `None`, so the setter always recomputes).  A raised
exception means no instance is created. -/
def mkVolume {α : Type} (src_voxel_data : Arr3 α) (src_transformation : Mat4 ℚ)
    (src_sys : Label) (system : Label) : Except Err (Volume α) :=
  if validate_transformation_matrix src_transformation (1 / 1000) = false then
    .error .invalidMatrix
  else
    let blank : Volume α :=
      { src_system := src_sys
        user_system := none
        vsrc2csrc_4x4 := src_transformation
        src_volume := src_voxel_data
        src_spacing_sq := fun _ => 0
        vsrc2cuser_4x4 := 0
        aligned_spacing_sq := fun _ => 0
        aligned_volume := src_voxel_data
        vuser2cuser_4x4 := 0
        vsrc2vuser_4x4 := 0
        vuser2vsrc_4x4 := 0 }
    match setSystem blank system with
    | (v, none) => .ok v
    | (_, some e) => .error e

/-- `True` iff the string can be parsed as an anatomical label: for each of
the three axes, the required letter or its anatomical opposite occurs (this
is exactly the condition under which `pos` does not raise). -/
def ParsableB (l : Label) : Bool := (pos l).isSome

/-- Occurrence count of a character in a string. -/
def countC (u : Label) (a : Char) : ℕ := (u.filter fun c => c = a).length

/-- One member of an anatomical-opposite pair occurs exactly once and the
other not at all. -/
def pairOnce (u : Label) (a b : Char) : Bool :=
  (decide (countC u a = 1) && decide (countC u b = 0)) ||
    (decide (countC u a = 0) && decide (countC u b = 1))

/-- The spec's AnatomicalLabel invariant (data model, §3): a 3-character
string in which, for each of the three opposite pairs, exactly one member
occurs exactly once (case-insensitive). -/
def validLabelB (l : Label) : Bool :=
  let u := upperL l
  decide (u.length = 3) && pairOnce u 'R' 'L' && pairOnce u 'A' 'P' &&
    pairOnce u 'S' 'I'

/-- The letter pair of each anatomical axis. -/
def pairFor (i : Fin 3) : List Char :=
  if i = 0 then ['R', 'L'] else if i = 1 then ['A', 'P'] else ['S', 'I']

/-- The six orders in which the three axes can appear in a label. -/
def axisOrders : List (Fin 3 × Fin 3 × Fin 3) :=
  [(0, 1, 2), (0, 2, 1), (1, 0, 2), (1, 2, 0), (2, 0, 1), (2, 1, 0)]

/-- All 48 canonically uppercase anatomical labels. -/
def canonical48 : List Label :=
  axisOrders.flatMap fun o =>
    (pairFor o.1).flatMap fun x =>
      (pairFor o.2.1).flatMap fun y =>
        (pairFor o.2.2).map fun z => [x, y, z]

instance {ε α : Type} [DecidableEq ε] [DecidableEq α] : DecidableEq (Except ε α) := fun x y =>
  match x, y with
  | .ok a, .ok b => decidable_of_iff (a = b) (by simp)
  | .error e, .error f => decidable_of_iff (e = f) (by simp)
  | .ok _, .error _ => isFalse (by simp)
  | .error _, .ok _ => isFalse (by simp)

/-- The forward (`src2dst`) matrix of `permutation_matrix`, with an arbitrary
value on the error case. -/
def pmFst (u w : Label) : Mat3 ℤ :=
  match permutation_matrix u w with
  | .ok p => p.1
  | .error _ => 0

/-- Number of nonzero entries in row `i` of a 3×3 integer matrix. -/
def rowNnz (P : Mat3 ℤ) (i : Fin 3) : ℕ :=
  (if P i 0 = 0 then 0 else 1) + (if P i 1 = 0 then 0 else 1) +
    (if P i 2 = 0 then 0 else 1)

/-- Number of nonzero entries in column `j` of a 3×3 integer matrix. -/
def colNnz (P : Mat3 ℤ) (j : Fin 3) : ℕ :=
  (if P 0 j = 0 then 0 else 1) + (if P 1 j = 0 then 0 else 1) +
    (if P 2 j = 0 then 0 else 1)

/-- The spec's SignedPermutationMatrix data-model invariant (§3): entries in
`{-1, 0, 1}`, exactly one nonzero entry per row and per column, determinant
`+1` or `-1`. -/
def IsSignedPermB (P : Mat3 ℤ) : Bool :=
  decide (∀ i j : Fin 3, P i j = -1 ∨ P i j = 0 ∨ P i j = 1) &&
  decide (∀ i : Fin 3, rowNnz P i = 1) &&
  decide (∀ j : Fin 3, colNnz P j = 1) &&
  decide (det3 P = 1 ∨ det3 P = -1)

/-- The canonical "RAS" label. -/
def rasLabel : Label := ['R', 'A', 'S']

/-- Explicit 3×3 matrix product (definitionally cheap; equal to `*`). -/
def mul3 {R : Type} [CommRing R] (A B : Mat3 R) : Mat3 R :=
  Matrix.of fun i j => A i 0 * B 0 j + A i 1 * B 1 j + A i 2 * B 2 j

/-- Row of the (first) nonzero entry in column `j` of `P`. -/
def rF (P : Mat3 ℤ) (j : Fin 3) : Fin 3 :=
  if P 0 j ≠ 0 then 0 else if P 1 j ≠ 0 then 1 else 2

/-- Column of the (first) nonzero entry in row `k` of `P`. -/
def sF (P : Mat3 ℤ) (k : Fin 3) : Fin 3 :=
  if P k 0 ≠ 0 then 0 else if P k 1 ≠ 0 then 1 else 2

/-- Value of the nonzero entry in column `j` of `P`. -/
def eF (P : Mat3 ℤ) (j : Fin 3) : ℤ := P (rF P j) j

/-- The signed permutation matrix whose column `j` has its nonzero entry
`e j` in row `r j`, given by explicit per-column data. -/
def repM3 (r0 r1 r2 : Fin 3) (e0 e1 e2 : ℤ) : Mat3 ℤ :=
  Matrix.of fun i j =>
    if j = 0 then (if i = r0 then e0 else 0)
    else if j = 1 then (if i = r1 then e1 else 0)
    else (if i = r2 then e2 else 0)

/-- Spec-side condition (§4.1, for claim C8): the rotational 3×3 part, after
dividing each column by its Euclidean norm, has an absolute determinant
within `tol = 1e-3` of 1.  By multilinearity of the determinant, the absolute
determinant of the column-normalized matrix is
`|det| / (norm0 * norm1 * norm2)`, written here over the reals. -/
def SpecDetClose (m : Mat4 ℚ) : Prop :=
  1 - 1 / 1000 ≤ |((det3 (rotPart m) : ℚ) : ℝ)| /
      (Real.sqrt ((colNormSq (rotPart m) 0 : ℚ) : ℝ) *
        Real.sqrt ((colNormSq (rotPart m) 1 : ℚ) : ℝ) *
        Real.sqrt ((colNormSq (rotPart m) 2 : ℚ) : ℝ)) ∧
    |((det3 (rotPart m) : ℚ) : ℝ)| /
      (Real.sqrt ((colNormSq (rotPart m) 0 : ℚ) : ℝ) *
        Real.sqrt ((colNormSq (rotPart m) 1 : ℚ) : ℝ) *
        Real.sqrt ((colNormSq (rotPart m) 2 : ℚ) : ℝ)) ≤ 1 + 1 / 1000

/-- Spec-side condition (§4.1): the bottom row's first three entries are
exactly 0. -/
def SpecLastRow (m : Mat4 ℚ) : Prop := m 3 0 = 0 ∧ m 3 1 = 0 ∧ m 3 2 = 0

/-- Spec-side condition (§4.1): the bottom-right entry is exactly 1. -/
def SpecCorner (m : Mat4 ℚ) : Prop := m 3 3 = 1


/-- A small concrete 3-dimensional array (all axes of length 1). -/
def arrA : Arr3 ℕ := { shape := fun _ => 1, data := fun _ => 0 }

/-- The §8 scenario source array of the spec: shape (2,3,4) filled with 0..23 in row-major order. -/
def srcArrC2 : Arr3 ℕ :=
  { shape := ![2, 3, 4], data := fun v => v 0 * 12 + v 1 * 4 + v 2 }

/-- The array expected by the §8 scenario: the source reversed along axes 0 and 1. -/
def expArrC2 : Arr3 ℕ :=
  { shape := ![2, 3, 4], data := fun v => (1 - v 0) * 12 + (2 - v 1) * 4 + v 2 }

/-- A concrete array of shape (2,1,1), used to detect an axis swap. -/
def arrC3 : Arr3 ℕ := { shape := ![2, 1, 1], data := fun v => v 0 }

/-- The signed permutation matrix exchanging axes 0 and 1. -/
def Pswap3 : Mat3 ℤ := Matrix.of ![![0, 1, 0], ![1, 0, 0], ![0, 0, 1]]

/-- A 4×4 transformation whose rotational part is the axis-0/1 swap. -/
def TswapM : Mat4 ℚ :=
  Matrix.of ![![0, 1, 0, 0], ![1, 0, 0, 0], ![0, 0, 1, 0], ![0, 0, 0, 1]]

/-- An integer matrix with two nonzero entries in its first row: not a signed permutation matrix, but with determinant 1 and entries in {-1,0,1}. -/
def badP : Mat3 ℤ := Matrix.of ![![1, 1, 0], ![0, 1, 0], ![0, 0, 1]]

/-- The intermediate `Volume` state built by `Volume.__init__` before the `system` setter runs (volume.py lines 50–57). -/
def blankVolume {α : Type} (src_voxel_data : Arr3 α) (src_transformation : Mat4 ℚ)
    (src_sys : Label) : Volume α :=
  { src_system := src_sys
    user_system := none
    vsrc2csrc_4x4 := src_transformation
    src_volume := src_voxel_data
    src_spacing_sq := fun _ => 0
    vsrc2cuser_4x4 := 0
    aligned_spacing_sq := fun _ => 0
    aligned_volume := src_voxel_data
    vuser2cuser_4x4 := 0
    vsrc2vuser_4x4 := 0
    vuser2vsrc_4x4 := 0 }

/-- A concrete volume whose `user_system` holds the canonical RAS label. -/
def vW : Volume ℕ :=
  { blankVolume arrA (1 : Mat4 ℚ) rasLabel with user_system := some rasLabel }

/-- A concrete volume with identity transformation and no `user_system` yet. -/
def vW3 : Volume ℕ := blankVolume arrA (1 : Mat4 ℚ) rasLabel


/-- The forward permutation matrix of the LPS→RAS change (reflections of axes 0 and 1). -/
def P1C2 : Mat3 ℤ := Matrix.of ![![-1, 0, 0], ![0, -1, 0], ![0, 0, 1]]

/-- The voxel transform `homogeneous_matrix(P1C2) · offset(P1C2, (2,3,4))`. -/
def XC2 : Mat4 ℤ :=
  Matrix.of ![![-1, 0, 0, 1], ![0, -1, 0, 2], ![0, 0, 1, 0], ![0, 0, 0, 1]]

/-- The voxel transform for the LPS→RAS change on an all-ones shape. -/
def XC9 : Mat4 ℤ :=
  Matrix.of ![![-1, 0, 0, 0], ![0, -1, 0, 0], ![0, 0, 1, 0], ![0, 0, 0, 1]]

/-- The forward permutation matrix of the RAS→ASR change. -/
def PA3 : Mat3 ℤ := Matrix.of ![![0, 1, 0], ![0, 0, 1], ![1, 0, 0]]

/-- The voxel transform of the first system change of the C3 scenario. -/
def XA3 : Mat4 ℤ :=
  Matrix.of ![![1, 0, 0, 0], ![0, 0, 1, 0], ![0, 1, 0, 0], ![0, 0, 0, 1]]

/-- The product `PA3 * Pswap3` (rotational part of `XA3`). -/
def QA3 : Mat3 ℤ := Matrix.of ![![1, 0, 0], ![0, 0, 1], ![0, 1, 0]]

/-- The voxel transform of the second system change of the C3 scenario. -/
def XB3 : Mat4 ℤ :=
  Matrix.of ![![0, 1, 0, 0], ![1, 0, 0, 0], ![0, 0, 1, 0], ![0, 0, 0, 1]]

/-- A concrete signed permutation matrix with two reflections. -/
def PW : Mat3 ℤ := Matrix.of ![![0, -1, 0], ![1, 0, 0], ![0, 0, -1]]

/-- Concrete positive per-column scale factors. -/
def sW : Fin 3 → ℚ := ![2, 3, 5]

/-- Every character is one of the six anatomical letters or none of them. -/
theorem char7 (c : Char) :
    c = 'R' ∨ c = 'L' ∨ c = 'A' ∨ c = 'P' ∨ c = 'S' ∨ c = 'I' ∨
      (c ≠ 'R' ∧ c ≠ 'L' ∧ c ≠ 'A' ∧ c ≠ 'P' ∧ c ≠ 'S' ∧ c ≠ 'I') := by
  tauto

/-- `pyToUpper` maps every character either to itself or to an uppercase
ASCII letter. -/
theorem pyToUpper_cases (c : Char) :
    pyToUpper c = c ∨ pyToUpper c ∈ upTable.map Prod.snd := by
  unfold pyToUpper
  cases h : upTable.find? fun p => p.1 = c with
  | none => left; rfl
  | some p =>
    right
    simpa using List.mem_map_of_mem Prod.snd (List.mem_of_find?_eq_some h)

/-- `pyToUpper` fixes every uppercase ASCII letter. -/
theorem pyToUpper_fix : ∀ u ∈ upTable.map Prod.snd, pyToUpper u = u := by decide

/-- `pyToUpper` is idempotent. -/
theorem pyToUpper_idem (c : Char) : pyToUpper (pyToUpper c) = pyToUpper c := by
  rcases pyToUpper_cases c with h | h
  · rw [h, h]
  · exact pyToUpper_fix _ h

/-- `upperL` is idempotent. -/
theorem upperL_idem (l : Label) : upperL (upperL l) = upperL l := by
  simp [upperL, List.map_map, Function.comp_def, pyToUpper_idem]

/-- `index` only looks at the uppercased string. -/
theorem index_upperL (l : Label) (c : Char) : index (upperL l) c = index l c := by
  simp [index, upperL_idem]

/-- `pos` only looks at the uppercased string. -/
theorem pos_upperL (l : Label) : pos (upperL l) = pos l := by
  simp [pos, index_upperL]

/-- `permutation_matrix` only looks at the uppercased strings. -/
theorem permutation_matrix_upperL (a b : Label) :
    permutation_matrix (upperL a) (upperL b) = permutation_matrix a b := by
  simp [permutation_matrix, upperL_idem]

set_option maxHeartbeats 1000000 in
/-- A 3-character uppercase string satisfying the three pair conditions is
one of the 48 canonical labels. -/
theorem upper_mem_canonical3 (c0 c1 c2 : Char)
    (hrl : pairOnce [c0, c1, c2] 'R' 'L' = true)
    (hap : pairOnce [c0, c1, c2] 'A' 'P' = true)
    (hsi : pairOnce [c0, c1, c2] 'S' 'I' = true) :
    [c0, c1, c2] ∈ canonical48 := by
  rcases char7 c0 with h0|h0|h0|h0|h0|h0|h0 <;>
    rcases char7 c1 with h1|h1|h1|h1|h1|h1|h1 <;>
      rcases char7 c2 with h2|h2|h2|h2|h2|h2|h2 <;>
        simp_all [pairOnce, countC, List.filter] <;> decide

/-- The uppercase form of every valid anatomical label is one of the 48
canonical labels. -/
theorem valid_mem_canonical (l : Label) (h : validLabelB l = true) :
    upperL l ∈ canonical48 := by
  simp only [validLabelB, Bool.and_eq_true, decide_eq_true_eq] at h
  obtain ⟨⟨⟨hlen, hrl⟩, hap⟩, hsi⟩ := h
  obtain ⟨c0, c1, c2, he⟩ := List.length_eq_three.mp hlen
  rw [he] at hrl hap hsi
  rw [he]
  exact upper_mem_canonical3 c0 c1 c2 hrl hap hsi

/-- Canonical labels are fixed by uppercasing. -/
theorem canonical_upper_fix : ∀ u ∈ canonical48, upperL u = u := by decide

/-- `pos` succeeds with in-range positions on every canonical label. -/
theorem canonical_pos_ok : ∀ u ∈ canonical48,
    (match pos u with
     | some sp => decide (sp.1 < 3 ∧ sp.2.1 < 3 ∧ sp.2.2 < 3)
     | none => false) = true := by decide

set_option maxHeartbeats 1000000 in
/-- `permutation_matrix u u` is the identity pair on every canonical label. -/
theorem pm_self_canonical : ∀ u ∈ canonical48,
    permutation_matrix u u = Except.ok ((1 : Mat3 ℤ), (1 : Mat3 ℤ)) := by decide

set_option maxHeartbeats 4000000 in
/-- Factorization of `permutation_matrix` through the RAS system: the forward
matrix from `u` to `w` is `N(w) * N(u)ᵀ`, where `N(x)` maps RAS coordinates
to `x` coordinates. -/
theorem pm_factor : ∀ u ∈ canonical48, ∀ w ∈ canonical48,
    pmFst u w = mul3 (pmFst rasLabel w) (pmFst rasLabel u).transpose := by decide

set_option maxHeartbeats 2000000 in
/-- The RAS-based matrices are signed permutation matrices with orthonormal
rows and columns, and `permutation_matrix rasLabel u` succeeds. -/
theorem pm_ras_facts : ∀ u ∈ canonical48,
    IsSignedPermB (pmFst rasLabel u) = true ∧
      mul3 (pmFst rasLabel u).transpose (pmFst rasLabel u) = 1 ∧
      mul3 (pmFst rasLabel u) (pmFst rasLabel u).transpose = 1 := by decide

theorem signedB_parts (P : Mat3 ℤ) (h : IsSignedPermB P = true) :
    (∀ i j : Fin 3, P i j = -1 ∨ P i j = 0 ∨ P i j = 1) ∧
      (∀ i : Fin 3, rowNnz P i = 1) ∧ (∀ j : Fin 3, colNnz P j = 1) ∧
      (det3 P = 1 ∨ det3 P = -1) := by
  simp only [IsSignedPermB, Bool.and_eq_true, decide_eq_true_eq] at h
  tauto

theorem col_cases (P : Mat3 ℤ) (j : Fin 3) (h : colNnz P j = 1) :
    (P 0 j ≠ 0 ∧ P 1 j = 0 ∧ P 2 j = 0) ∨
      (P 0 j = 0 ∧ P 1 j ≠ 0 ∧ P 2 j = 0) ∨
      (P 0 j = 0 ∧ P 1 j = 0 ∧ P 2 j ≠ 0) := by
  unfold colNnz at h
  split_ifs at h <;> simp_all

theorem row_cases (P : Mat3 ℤ) (i : Fin 3) (h : rowNnz P i = 1) :
    (P i 0 ≠ 0 ∧ P i 1 = 0 ∧ P i 2 = 0) ∨
      (P i 0 = 0 ∧ P i 1 ≠ 0 ∧ P i 2 = 0) ∨
      (P i 0 = 0 ∧ P i 1 = 0 ∧ P i 2 ≠ 0) := by
  unfold rowNnz at h
  split_ifs at h <;> simp_all

theorem rF_spec (P : Mat3 ℤ) (j : Fin 3) (h : colNnz P j = 1) :
    P (rF P j) j ≠ 0 ∧ ∀ i : Fin 3, i ≠ rF P j → P i j = 0 := by
  rcases col_cases P j h with ⟨h0, h1, h2⟩ | ⟨h0, h1, h2⟩ | ⟨h0, h1, h2⟩
  · have hr : rF P j = 0 := by simp [rF, h0]
    rw [hr]
    exact ⟨h0, by intro i hi; fin_cases i <;> simp_all⟩
  · have hr : rF P j = 1 := by simp [rF, h0, h1]
    rw [hr]
    exact ⟨h1, by intro i hi; fin_cases i <;> simp_all⟩
  · have hr : rF P j = 2 := by simp [rF, h0, h1]
    rw [hr]
    exact ⟨h2, by intro i hi; fin_cases i <;> simp_all⟩

theorem sF_spec (P : Mat3 ℤ) (i : Fin 3) (h : rowNnz P i = 1) :
    P i (sF P i) ≠ 0 ∧ ∀ j : Fin 3, j ≠ sF P i → P i j = 0 := by
  rcases row_cases P i h with ⟨h0, h1, h2⟩ | ⟨h0, h1, h2⟩ | ⟨h0, h1, h2⟩
  · have hs : sF P i = 0 := by simp [sF, h0]
    rw [hs]
    exact ⟨h0, by intro j hj; fin_cases j <;> simp_all⟩
  · have hs : sF P i = 1 := by simp [sF, h0, h1]
    rw [hs]
    exact ⟨h1, by intro j hj; fin_cases j <;> simp_all⟩
  · have hs : sF P i = 2 := by simp [sF, h0, h1]
    rw [hs]
    exact ⟨h2, by intro j hj; fin_cases j <;> simp_all⟩

theorem rep_eq (P : Mat3 ℤ) (j : Fin 3) (h : colNnz P j = 1) (i : Fin 3) :
    P i j = if i = rF P j then eF P j else 0 := by
  by_cases hij : i = rF P j
  · subst hij; simp [eF]
  · simp [hij, (rF_spec P j h).2 i hij]

theorem sF_rF (P : Mat3 ℤ) (j : Fin 3) (hrow : ∀ i : Fin 3, rowNnz P i = 1)
    (hcol : colNnz P j = 1) : sF P (rF P j) = j := by
  by_contra hne
  exact (rF_spec P j hcol).1 ((sF_spec P (rF P j) (hrow (rF P j))).2 j (Ne.symm hne))

theorem rF_sF (P : Mat3 ℤ) (k : Fin 3) (hrow : rowNnz P k = 1)
    (hcol : ∀ j : Fin 3, colNnz P j = 1) : rF P (sF P k) = k := by
  by_contra hne
  exact (sF_spec P k hrow).1 ((rF_spec P (sF P k) (hcol (sF P k))).2 k (Ne.symm hne))

theorem eF_pm (P : Mat3 ℤ) (j : Fin 3) (hcol : colNnz P j = 1)
    (hent : ∀ i j : Fin 3, P i j = -1 ∨ P i j = 0 ∨ P i j = 1) :
    eF P j = 1 ∨ eF P j = -1 := by
  have hne := (rF_spec P j hcol).1
  rcases hent (rF P j) j with h1 | h1 | h1 <;> simp_all [eF]

theorem colSum_eF (P : Mat3 ℤ) (j : Fin 3) (hcol : colNnz P j = 1) :
    colSum P j = eF P j := by
  rcases col_cases P j hcol with ⟨h0, h1, h2⟩ | ⟨h0, h1, h2⟩ | ⟨h0, h1, h2⟩
  · have hr : rF P j = 0 := by simp [rF, h0]
    simp [colSum, eF, hr, h1, h2]
  · have hr : rF P j = 1 := by simp [rF, h0, h1]
    simp [colSum, eF, hr, h0, h2]
  · have hr : rF P j = 2 := by simp [rF, h0, h1]
    simp [colSum, eF, hr, h0, h1]

theorem colSq_one (P : Mat3 ℤ) (j : Fin 3) (hcol : colNnz P j = 1)
    (hent : ∀ i j : Fin 3, P i j = -1 ∨ P i j = 0 ∨ P i j = 1) :
    P 0 j ^ 2 + P 1 j ^ 2 + P 2 j ^ 2 = 1 := by
  rcases col_cases P j hcol with ⟨h0, h1, h2⟩ | ⟨h0, h1, h2⟩ | ⟨h0, h1, h2⟩
  · rcases hent 0 j with h | h | h <;> simp_all
  · rcases hent 1 j with h | h | h <;> simp_all
  · rcases hent 2 j with h | h | h <;> simp_all

theorem pvZ_sF (P : Mat3 ℤ) (k : Fin 3) (hrow : rowNnz P k = 1)
    (hent : ∀ i j : Fin 3, P i j = -1 ∨ P i j = 0 ∨ P i j = 1) :
    pvZ P k = ((sF P k : ℕ) : ℤ) := by
  rcases row_cases P k hrow with ⟨h0, h1, h2⟩ | ⟨h0, h1, h2⟩ | ⟨h0, h1, h2⟩
  · have hs : sF P k = 0 := by simp [sF, h0]
    simp [pvZ, hs, h1, h2]
  · have hs : sF P k = 1 := by simp [sF, h0, h1]
    rcases hent k 1 with h | h | h <;> simp_all [pvZ, hs, h0, h2]
  · have hs : sF P k = 2 := by simp [sF, h0, h1]
    rcases hent k 2 with h | h | h <;> simp_all [pvZ, hs, h0, h1]

theorem rowNnz_transpose (P : Mat3 ℤ) (i : Fin 3) :
    rowNnz P.transpose i = colNnz P i := rfl

theorem colNnz_transpose (P : Mat3 ℤ) (j : Fin 3) :
    colNnz P.transpose j = rowNnz P j := rfl

theorem det3_transpose (P : Mat3 ℤ) : det3 P.transpose = det3 P := by
  simp only [det3, Matrix.transpose_apply]
  ring

theorem signedB_transpose (P : Mat3 ℤ) (h : IsSignedPermB P = true) :
    IsSignedPermB P.transpose = true := by
  obtain ⟨hent, hrow, hcol, hdet⟩ := signedB_parts P h
  simp only [IsSignedPermB, Bool.and_eq_true, decide_eq_true_eq]
  refine ⟨⟨⟨fun i j => hent j i, fun i => hcol i⟩, fun j => hrow j⟩, ?_⟩
  rw [det3_transpose]
  exact hdet

theorem validate_of_signed (P : Mat3 ℤ) (h : IsSignedPermB P = true) :
    validate_permutation_matrix P = true := by
  obtain ⟨hent, _, _, hdet⟩ := signedB_parts P h
  simp only [validate_permutation_matrix, Bool.and_eq_true, decide_eq_true_eq]
  exact ⟨by rcases hdet with h1 | h1 <;> simp [h1], hent⟩

theorem mul3_eq_mul {R : Type} [CommRing R] (A B : Mat3 R) : mul3 A B = A * B := by
  funext i j
  simp [mul3, Matrix.mul_apply, Fin.sum_univ_three]

set_option maxHeartbeats 4000000 in
set_option maxRecDepth 10000 in
theorem greedy_repM3 (r0 r1 r2 : Fin 3) (e0 e1 e2 : ℤ)
    (hd : r0 ≠ r1 ∧ r0 ≠ r2 ∧ r1 ≠ r2)
    (he0 : e0 = 1 ∨ e0 = -1) (he1 : e1 = 1 ∨ e1 = -1) (he2 : e2 = 1 ∨ e2 = -1) :
    greedyAux (fun c => ((repM3 r0 r1 r2 e0 e1 e2 c.1 c.2 : ℚ)) ^ 2)
      (fun c => repM3 r0 r1 r2 e0 e1 e2 c.1 c.2) 9 rowMajorCells 0
      = repM3 r0 r1 r2 e0 e1 e2 := by
  rcases he0 with rfl | rfl <;> rcases he1 with rfl | rfl <;> rcases he2 with rfl | rfl <;>
    fin_cases r0 <;> fin_cases r1 <;> fin_cases r2 <;>
      first
        | exact absurd hd (by decide)
        | decide

theorem rF_inj (P : Mat3 ℤ) (hrow : ∀ i : Fin 3, rowNnz P i = 1)
    (hcol : ∀ j : Fin 3, colNnz P j = 1) (j1 j2 : Fin 3) (hne : j1 ≠ j2) :
    rF P j1 ≠ rF P j2 := by
  intro he
  apply hne
  have h1 := sF_rF P j1 hrow (hcol j1)
  have h2 := sF_rF P j2 hrow (hcol j2)
  rw [he] at h1
  rw [← h1, h2]

theorem rep_eq3 (P : Mat3 ℤ) (hcol : ∀ j : Fin 3, colNnz P j = 1) :
    P = repM3 (rF P 0) (rF P 1) (rF P 2) (eF P 0) (eF P 1) (eF P 2) := by
  funext i j
  fin_cases j
  · show P i 0 = _
    rw [rep_eq P 0 (hcol 0) i]
    simp [repM3]
  · show P i 1 = _
    rw [rep_eq P 1 (hcol 1) i]
    simp [repM3]
  · show P i 2 = _
    rw [rep_eq P 2 (hcol 2) i]
    simp [repM3]

theorem find_closest_exact (P : Mat3 ℤ) (hP : IsSignedPermB P = true)
    (s : Fin 3 → ℚ) (hs : ∀ j : Fin 3, 0 < s j) :
    find_closest_permutation_matrix (Matrix.of fun i j => (P i j : ℚ) * s j) = P := by
  obtain ⟨hent, hrow, hcol, _⟩ := signedB_parts P hP
  have hcolSq : ∀ j : Fin 3,
      colNormSq (Matrix.of fun i j => (P i j : ℚ) * s j) j = s j ^ 2 := by
    intro j
    have h1 := colSq_one P j (hcol j) hent
    have h1q : ((P 0 j : ℚ)) ^ 2 + ((P 1 j : ℚ)) ^ 2 + ((P 2 j : ℚ)) ^ 2 = 1 := by
      exact_mod_cast h1
    simp only [colNormSq, Matrix.of_apply]
    linear_combination (s j ^ 2) * h1q
  have hval : greedyVal (Matrix.of fun i j => (P i j : ℚ) * s j) =
      fun c => ((P c.1 c.2 : ℚ)) ^ 2 := by
    funext c
    have hs2 : s c.2 ≠ 0 := ne_of_gt (hs c.2)
    simp only [greedyVal, hcolSq c.2, Matrix.of_apply]
    field_simp
    ring
  have hsgn : (fun c : Cell => intSign ((Matrix.of fun i j => (P i j : ℚ) * s j) c.1 c.2)) =
      fun c => P c.1 c.2 := by
    funext c
    simp only [Matrix.of_apply]
    rcases hent c.1 c.2 with h | h | h <;> rw [h]
    · have hlt : ((-1 : ℤ) : ℚ) * s c.2 < 0 := by
        push_cast
        nlinarith [hs c.2]
      simp only [intSign]
      rw [if_neg (by linarith), if_pos hlt]
    · simp [intSign]
    · simp only [intSign, Int.cast_one, one_mul]
      rw [if_pos (hs c.2)]
  have hdist : rF P 0 ≠ rF P 1 ∧ rF P 0 ≠ rF P 2 ∧ rF P 1 ≠ rF P 2 :=
    ⟨rF_inj P hrow hcol 0 1 (by decide), rF_inj P hrow hcol 0 2 (by decide),
      rF_inj P hrow hcol 1 2 (by decide)⟩
  unfold find_closest_permutation_matrix
  rw [hval, hsgn]
  rw [rep_eq3 P hcol]
  exact greedy_repM3 _ _ _ _ _ _ hdist (eF_pm P 0 (hcol 0) hent)
    (eF_pm P 1 (hcol 1) hent) (eF_pm P 2 (hcol 2) hent)

theorem sF_inj (P : Mat3 ℤ) (hrow : ∀ i : Fin 3, rowNnz P i = 1)
    (hcol : ∀ j : Fin 3, colNnz P j = 1) (k1 k2 : Fin 3) (hne : k1 ≠ k2) :
    sF P k1 ≠ sF P k2 := by
  intro he
  apply hne
  have h1 := rF_sF P k1 (hrow k1) hcol
  have h2 := rF_sF P k2 (hrow k2) hcol
  rw [he] at h1
  rw [← h1, h2]

theorem finOfZ_coe : ∀ m : Fin 3, finOfZ ((m : ℕ) : ℤ) = m := by decide

theorem sliceCount_pm_one (s : ℤ) (hs : s = 1 ∨ s = -1) (n : ℕ) :
    sliceCount s n = n := by
  rcases hs with h | h <;> simp [sliceCount, h]

theorem mapIdx_one (n x : ℕ) : mapIdx 1 n x = x := by simp [mapIdx]

theorem mapIdx_neg_one (n x : ℕ) : mapIdx (-1) n x = n - 1 - x := by
  simp [mapIdx]

theorem tau_inv_eq (P : Mat3 ℤ) (hrow : ∀ i : Fin 3, rowNnz P i = 1)
    (hcol : ∀ j : Fin 3, colNnz P j = 1) (m : Fin 3) :
    (if sF P 0 = m then (0 : Fin 3) else if sF P 1 = m then 1 else 2) = rF P m := by
  have hm := sF_rF P m hrow (hcol m)
  by_cases h0 : sF P 0 = m
  · have hr : rF P m = 0 := by rw [← h0, rF_sF P 0 (hrow 0) hcol]
    simp [h0, hr]
  · by_cases h1 : sF P 1 = m
    · have hr : rF P m = 1 := by rw [← h1, rF_sF P 1 (hrow 1) hcol]
      simp [h0, h1, hr]
    · have h0' : rF P m ≠ 0 := fun he => h0 (by rw [← hm, he])
      have h1' : rF P m ≠ 1 := fun he => h1 (by rw [← hm, he])
      have hx : ∀ x : Fin 3, x ≠ 0 → x ≠ 1 → x = 2 := by decide
      have hr : rF P m = 2 := hx _ h0' h1'
      simp [h0, h1, hr]

theorem swap_signed {α : Type} (a : Arr3 α) (P : Mat3 ℤ)
    (hP : IsSignedPermB P = true) :
    swap a P = Except.ok
      { shape := fun k => a.shape (sF P k)
        data := fun v => a.data fun j =>
          if eF P j = -1 then a.shape j - 1 - v (rF P j) else v (rF P j) } := by
  obtain ⟨hent, hrow, hcol, hdet⟩ := signedB_parts P hP
  have hvalid := validate_of_signed P hP
  have hes : ∀ j : Fin 3, eF P j = 1 ∨ eF P j = -1 :=
    fun j => eF_pm P j (hcol j) hent
  have hcs : ∀ j : Fin 3, colSum P j = eF P j := fun j => colSum_eF P j (hcol j)
  have hpv : ∀ k : Fin 3, pvZ P k = ((sF P k : ℕ) : ℤ) :=
    fun k => pvZ_sF P k (hrow k) hent
  have hcoe : ∀ k1 k2 : Fin 3, k1 ≠ k2 →
      ((sF P k1 : ℕ) : ℤ) ≠ ((sF P k2 : ℕ) : ℤ) := by
    intro k1 k2 hne he
    exact sF_inj P hrow hcol k1 k2 hne (Fin.ext (by exact_mod_cast he))
  unfold swap
  rw [if_neg (by simp [hvalid])]
  rw [if_neg (by
    push_neg
    exact ⟨by rw [hcs 0]; rcases hes 0 with h | h <;> simp [h],
      by rw [hcs 1]; rcases hes 1 with h | h <;> simp [h],
      by rw [hcs 2]; rcases hes 2 with h | h <;> simp [h]⟩)]
  rw [if_neg (not_not_intro ⟨by rw [hpv]; exact_mod_cast (sF P 0).isLt,
    by rw [hpv]; exact_mod_cast (sF P 1).isLt,
    by rw [hpv]; exact_mod_cast (sF P 2).isLt,
    by rw [hpv, hpv]; exact hcoe 0 1 (by decide),
    by rw [hpv, hpv]; exact hcoe 0 2 (by decide),
    by rw [hpv, hpv]; exact hcoe 1 2 (by decide)⟩)]
  have htau : ∀ k : Fin 3, finOfZ (pvZ P k) = sF P k := by
    intro k
    rw [hpv k, finOfZ_coe]
  refine congrArg Except.ok (Arr3.ext ?_ ?_)
  · funext k
    show sliceCount (colSum P (finOfZ (pvZ P k))) (a.shape (finOfZ (pvZ P k)))
        = a.shape (sF P k)
    rw [htau k, hcs (sF P k), sliceCount_pm_one _ (hes (sF P k)) _]
  · funext v
    show a.data (fun j => mapIdx (colSum P j) (a.shape j)
        (v (if finOfZ (pvZ P 0) = j then (0 : Fin 3)
            else if finOfZ (pvZ P 1) = j then 1 else 2)))
      = a.data (fun j => if eF P j = -1 then a.shape j - 1 - v (rF P j)
          else v (rF P j))
    refine congrArg a.data ?_
    funext j
    rw [htau 0, htau 1, tau_inv_eq P hrow hcol j, hcs j]
    rcases hes j with h | h
    · rw [h, if_neg (by decide : ¬ ((1 : ℤ) = -1)), mapIdx_one]
    · rw [h, if_pos rfl, mapIdx_neg_one]

theorem rF_transpose (P : Mat3 ℤ) : rF P.transpose = sF P := rfl

theorem sF_transpose (P : Mat3 ℤ) : sF P.transpose = rF P := rfl

theorem eF_transpose (P : Mat3 ℤ) (hrow : ∀ i : Fin 3, rowNnz P i = 1)
    (hcol : ∀ j : Fin 3, colNnz P j = 1) (j : Fin 3) :
    eF P.transpose j = eF P (sF P j) := by
  show P.transpose (rF P.transpose j) j = P (rF P (sF P j)) (sF P j)
  rw [rF_transpose, rF_sF P j (hrow j) hcol]
  rfl

set_option maxHeartbeats 4000000 in
set_option maxRecDepth 10000 in
theorem repM3_mul_transpose (r0 r1 r2 : Fin 3) (e0 e1 e2 : ℤ)
    (hd : r0 ≠ r1 ∧ r0 ≠ r2 ∧ r1 ≠ r2)
    (he0 : e0 = 1 ∨ e0 = -1) (he1 : e1 = 1 ∨ e1 = -1) (he2 : e2 = 1 ∨ e2 = -1) :
    mul3 (repM3 r0 r1 r2 e0 e1 e2) (repM3 r0 r1 r2 e0 e1 e2).transpose = 1 ∧
      mul3 (repM3 r0 r1 r2 e0 e1 e2).transpose (repM3 r0 r1 r2 e0 e1 e2) = 1 := by
  rcases he0 with rfl | rfl <;> rcases he1 with rfl | rfl <;> rcases he2 with rfl | rfl <;>
    fin_cases r0 <;> fin_cases r1 <;> fin_cases r2 <;>
      first
        | exact absurd hd (by decide)
        | decide

theorem signed_mul_transpose (P : Mat3 ℤ) (hP : IsSignedPermB P = true) :
    P * P.transpose = 1 ∧ P.transpose * P = 1 := by
  obtain ⟨hent, hrow, hcol, _⟩ := signedB_parts P hP
  have hdist : rF P 0 ≠ rF P 1 ∧ rF P 0 ≠ rF P 2 ∧ rF P 1 ≠ rF P 2 :=
    ⟨rF_inj P hrow hcol 0 1 (by decide), rF_inj P hrow hcol 0 2 (by decide),
      rF_inj P hrow hcol 1 2 (by decide)⟩
  have h := repM3_mul_transpose _ _ _ _ _ _ hdist (eF_pm P 0 (hcol 0) hent)
    (eF_pm P 1 (hcol 1) hent) (eF_pm P 2 (hcol 2) hent)
  rw [← rep_eq3 P hcol, mul3_eq_mul, mul3_eq_mul] at h
  exact h

theorem swap_roundtrip {α : Type} (arr : Arr3 α) (P : Mat3 ℤ)
    (hP : IsSignedPermB P = true) :
    ∃ b c : Arr3 α, swap arr P = Except.ok b ∧
      swap b P.transpose = Except.ok c ∧ c.eqv arr := by
  obtain ⟨hent, hrow, hcol, _⟩ := signedB_parts P hP
  have hPt := signedB_transpose P hP
  refine ⟨_, _, swap_signed arr P hP, swap_signed _ P.transpose hPt, ?_⟩
  constructor
  · funext k
    show arr.shape (sF P (sF P.transpose k)) = arr.shape k
    rw [sF_transpose, sF_rF P k hrow (hcol k)]
  · intro v hv
    have hvm : ∀ m : Fin 3, v m < arr.shape m := by
      intro m
      have h1 := hv m
      simpa [sF_transpose, sF_rF P m hrow (hcol m)] using h1
    show arr.data _ = arr.data v
    refine congrArg arr.data ?_
    funext m
    simp only [sF_transpose, rF_transpose, eF_transpose P hrow hcol,
      sF_rF P m hrow (hcol m)]
    rcases eF_pm P m (hcol m) hent with h | h
    · simp [h]
    · simp [h]
      have := hvm m
      omega

set_option maxHeartbeats 4000000 in
set_option maxRecDepth 10000 in
theorem repM3_signed (r0 r1 r2 : Fin 3) (e0 e1 e2 : ℤ)
    (hd : r0 ≠ r1 ∧ r0 ≠ r2 ∧ r1 ≠ r2)
    (he0 : e0 = 1 ∨ e0 = -1) (he1 : e1 = 1 ∨ e1 = -1) (he2 : e2 = 1 ∨ e2 = -1) :
    IsSignedPermB (repM3 r0 r1 r2 e0 e1 e2) = true := by
  rcases he0 with rfl | rfl <;> rcases he1 with rfl | rfl <;> rcases he2 with rfl | rfl <;>
    fin_cases r0 <;> fin_cases r1 <;> fin_cases r2 <;>
      first
        | exact absurd hd (by decide)
        | decide

set_option maxHeartbeats 4000000 in
theorem mul_repM3 (a0 a1 a2 b0 b1 b2 : Fin 3) (x0 x1 x2 y0 y1 y2 : ℤ) :
    mul3 (repM3 a0 a1 a2 x0 x1 x2) (repM3 b0 b1 b2 y0 y1 y2) =
      repM3 (if b0 = 0 then a0 else if b0 = 1 then a1 else a2)
            (if b1 = 0 then a0 else if b1 = 1 then a1 else a2)
            (if b2 = 0 then a0 else if b2 = 1 then a1 else a2)
            ((if b0 = 0 then x0 else if b0 = 1 then x1 else x2) * y0)
            ((if b1 = 0 then x0 else if b1 = 1 then x1 else x2) * y1)
            ((if b2 = 0 then x0 else if b2 = 1 then x1 else x2) * y2) := by
  funext i j
  fin_cases j <;> fin_cases b0 <;> fin_cases b1 <;> fin_cases b2 <;>
    simp [mul3, repM3]

theorem pick3_eq (P : Mat3 ℤ) (k : Fin 3) :
    (if k = 0 then rF P 0 else if k = 1 then rF P 1 else rF P 2) = rF P k := by
  fin_cases k <;> simp

theorem pickE_eq (P : Mat3 ℤ) (k : Fin 3) :
    (if k = 0 then eF P 0 else if k = 1 then eF P 1 else eF P 2) = eF P k := by
  fin_cases k <;> simp

theorem signed_mul (P Q : Mat3 ℤ) (hP : IsSignedPermB P = true)
    (hQ : IsSignedPermB Q = true) : IsSignedPermB (P * Q) = true := by
  obtain ⟨hentP, hrowP, hcolP, _⟩ := signedB_parts P hP
  obtain ⟨hentQ, hrowQ, hcolQ, _⟩ := signedB_parts Q hQ
  rw [← mul3_eq_mul]
  have hPr := rep_eq3 P hcolP
  have hQr := rep_eq3 Q hcolQ
  rw [hPr, hQr, mul_repM3]
  rw [pick3_eq, pick3_eq, pick3_eq, pickE_eq, pickE_eq, pickE_eq]
  apply repM3_signed
  · have h01 := rF_inj Q hrowQ hcolQ 0 1 (by decide)
    have h02 := rF_inj Q hrowQ hcolQ 0 2 (by decide)
    have h12 := rF_inj Q hrowQ hcolQ 1 2 (by decide)
    exact ⟨rF_inj P hrowP hcolP _ _ h01, rF_inj P hrowP hcolP _ _ h02,
      rF_inj P hrowP hcolP _ _ h12⟩
  · rcases eF_pm P (rF Q 0) (hcolP _) hentP with h1 | h1 <;>
      rcases eF_pm Q 0 (hcolQ 0) hentQ with h2 | h2 <;> simp [h1, h2]
  · rcases eF_pm P (rF Q 1) (hcolP _) hentP with h1 | h1 <;>
      rcases eF_pm Q 1 (hcolQ 1) hentQ with h2 | h2 <;> simp [h1, h2]
  · rcases eF_pm P (rF Q 2) (hcolP _) hentP with h1 | h1 <;>
      rcases eF_pm Q 2 (hcolQ 2) hentQ with h2 | h2 <;> simp [h1, h2]

theorem except_exists_ok {ε α : Type} (x : Except ε α) (h : x.isOk = true) :
    ∃ a, x = .ok a := by
  cases x <;> simp_all [Except.isOk, Except.toBool]

theorem pm_snd (u w : Label) (p : Mat3 ℤ × Mat3 ℤ)
    (h : permutation_matrix u w = .ok p) : p.2 = p.1.transpose := by
  cases hpu : pos (upperL u) with
  | none =>
    simp only [permutation_matrix, hpu] at h
    exact absurd h (by simp)
  | some sp =>
    cases hpw : pos (upperL w) with
    | none =>
      simp only [permutation_matrix, hpu, hpw] at h
      exact absurd h (by simp)
    | some dp =>
      simp only [permutation_matrix, hpu, hpw] at h
      split at h
      · simp only [Except.ok.injEq] at h
        rw [← h]
      · exact absurd h (by simp)

theorem pm_ok_canonical (u w : Label) (hu : u ∈ canonical48)
    (hw : w ∈ canonical48) : (permutation_matrix u w).isOk = true := by
  have hu1 := canonical_upper_fix u hu
  have hu2 := canonical_pos_ok u hu
  have hw1 := canonical_upper_fix w hw
  have hw2 := canonical_pos_ok w hw
  cases hpu : pos u with
  | none => rw [hpu] at hu2; exact absurd hu2 (by simp)
  | some sp =>
    cases hpw : pos w with
    | none => rw [hpw] at hw2; exact absurd hw2 (by simp)
    | some dp =>
      rw [hpu] at hu2
      rw [hpw] at hw2
      simp only [decide_eq_true_eq] at hu2 hw2
      simp only [permutation_matrix, hu1, hw1, hpu, hpw]
      rw [if_pos ⟨hu2.1, hu2.2.1, hu2.2.2, hw2.1, hw2.2.1, hw2.2.2⟩]
      rfl

theorem pm_upper_right (a b : Label) :
    permutation_matrix a (upperL b) = permutation_matrix a b := by
  simp [permutation_matrix, upperL_idem]

theorem parsable_upperL (l : Label) : ParsableB (upperL l) = ParsableB l := by
  simp [ParsableB, pos_upperL]

theorem pm_error_of_dst (u l : Label) (h : pos (upperL l) = none) :
    permutation_matrix u l = .error .labelError := by
  cases hpu : pos (upperL u) with
  | none => simp [permutation_matrix, hpu]
  | some sp => simp [permutation_matrix, hpu, h]

theorem onSystemChange_user {α : Type} (v : Volume α) (ns : Label) :
    (onSystemChange v ns).1.user_system = some ns := by
  unfold onSystemChange
  cases hpm : permutation_matrix v.src_system ns with
  | error e => rfl
  | ok p =>
    simp only
    split
    · rfl
    · split <;> rfl

theorem onSystemChange_src_fields {α : Type} (v : Volume α) (ns : Label) :
    (onSystemChange v ns).1.src_system = v.src_system ∧
      (onSystemChange v ns).1.vsrc2csrc_4x4 = v.vsrc2csrc_4x4 ∧
      (onSystemChange v ns).1.src_volume = v.src_volume := by
  unfold onSystemChange
  cases hpm : permutation_matrix v.src_system ns with
  | error e => exact ⟨rfl, rfl, rfl⟩
  | ok p =>
    simp only
    split
    · exact ⟨rfl, rfl, rfl⟩
    · split <;> exact ⟨rfl, rfl, rfl⟩

theorem setSystem_user {α : Type} (v : Volume α) (l : Label) :
    (setSystem v l).1.user_system = some (upperL l) := by
  show (if v.user_system = some (upperL l) then (v, none)
      else onSystemChange v (upperL l)).1.user_system = some (upperL l)
  split
  · next h => exact h
  · exact onSystemChange_user v (upperL l)

theorem setSystem_src_fields {α : Type} (v : Volume α) (l : Label) :
    (setSystem v l).1.src_system = v.src_system ∧
      (setSystem v l).1.vsrc2csrc_4x4 = v.vsrc2csrc_4x4 ∧
      (setSystem v l).1.src_volume = v.src_volume := by
  have hx : setSystem v l = if v.user_system = some (upperL l) then (v, none)
      else onSystemChange v (upperL l) := rfl
  rw [hx]
  split
  · exact ⟨rfl, rfl, rfl⟩
  · exact onSystemChange_src_fields v (upperL l)

theorem onSystemChange_ok {α : Type} (v : Volume α) (ns : Label)
    (p : Mat3 ℤ × Mat3 ℤ) (hpm : permutation_matrix v.src_system ns = .ok p)
    (iv : Mat4 ℚ)
    (hinv : inv4 (homogeneous_matrix
        (p.1 * find_closest_permutation_matrix (rotPart v.vsrc2csrc_4x4)) *
      offset (p.1 * find_closest_permutation_matrix (rotPart v.vsrc2csrc_4x4))
        v.src_volume.shape) = some iv)
    (al : Arr3 α)
    (hsw : swap v.src_volume (crop3 (homogeneous_matrix
        (p.1 * find_closest_permutation_matrix (rotPart v.vsrc2csrc_4x4)) *
      offset (p.1 * find_closest_permutation_matrix (rotPart v.vsrc2csrc_4x4))
        v.src_volume.shape)) = .ok al) :
    onSystemChange v ns =
      ({ v with
          user_system := some ns
          vsrc2vuser_4x4 := homogeneous_matrix
              (p.1 * find_closest_permutation_matrix (rotPart v.vsrc2csrc_4x4)) *
            offset (p.1 * find_closest_permutation_matrix (rotPart v.vsrc2csrc_4x4))
              v.src_volume.shape
          vuser2vsrc_4x4 := iv
          vsrc2cuser_4x4 :=
            transformation_for_new_coordinate_system v.vsrc2csrc_4x4 p.1
          vuser2cuser_4x4 := transformation_for_new_voxel_alignment
            (transformation_for_new_coordinate_system v.vsrc2csrc_4x4 p.1) iv
          src_spacing_sq := fun j => colNormSq (rotPart v.vsrc2csrc_4x4) j
          aligned_spacing_sq := fun j => colNormSq
            (rotPart (transformation_for_new_voxel_alignment
              (transformation_for_new_coordinate_system v.vsrc2csrc_4x4 p.1) iv)) j
          aligned_volume := al }, none) := by
  unfold onSystemChange
  simp only [hpm, hinv, hsw]

theorem colSum_one : ∀ j : Fin 3, colSum (1 : Mat3 ℤ) j = 1 := by decide

theorem offset_one (shape : Fin 3 → ℕ) : offset (1 : Mat3 ℤ) shape = 1 := by
  funext r c
  simp only [offset, Matrix.of_apply]
  split_ifs with h1 h2 h3
  · rw [h1, Matrix.one_apply_eq]
  · have hc := colSum_one ⟨r, h2.2⟩
    rw [h3] at hc
    exact absurd hc (by decide)
  · exact (Matrix.one_apply_ne h1).symm
  · exact (Matrix.one_apply_ne h1).symm

theorem homog_one : homogeneous_matrix (1 : Mat3 ℤ) = 1 := by decide

theorem crop3_one : crop3 (1 : Mat4 ℤ) = 1 := by decide

theorem castM4_one : castM4 (1 : Mat4 ℤ) = 1 := by decide

theorem inv4_one : inv4 (1 : Mat4 ℤ) = some 1 := by
  rw [inv4, castM4_one]
  simp [Matrix.det_one, Matrix.adjugate_one]

theorem sF_one : ∀ k : Fin 3, sF (1 : Mat3 ℤ) k = k := by decide

theorem rF_one : ∀ k : Fin 3, rF (1 : Mat3 ℤ) k = k := by decide

theorem eF_one : ∀ j : Fin 3, eF (1 : Mat3 ℤ) j = 1 := by decide

theorem signedB_one : IsSignedPermB (1 : Mat3 ℤ) = true := by decide

theorem swap_one_eqv {α : Type} (a : Arr3 α) :
    ∃ b : Arr3 α, swap a (1 : Mat3 ℤ) = .ok b ∧ b.eqv a := by
  refine ⟨_, swap_signed a 1 signedB_one, ?_, ?_⟩
  · funext k
    show a.shape (sF 1 k) = a.shape k
    rw [sF_one]
  · intro v hv
    show a.data _ = a.data v
    refine congrArg a.data ?_
    funext j
    simp [eF_one j, rF_one j]

theorem rot_scaled_id (T : Mat4 ℚ) (s : Fin 3 → ℚ)
    (hrot : ∀ i j : Fin 3, rotPart T i j = if i = j then s j else 0) :
    rotPart T = Matrix.of fun i j => (((1 : Mat3 ℤ) i j : ℚ)) * s j := by
  funext i j
  rw [show rotPart T i j = (if i = j then s j else 0) from hrot i j]
  by_cases h : i = j <;> simp [h, Matrix.one_apply]

theorem roundtrip_core {α : Type} (v : Volume α)
    (hsrc : validLabelB v.src_system = true)
    (s : Fin 3 → ℚ) (hs : ∀ j : Fin 3, 0 < s j)
    (hrot : ∀ i j : Fin 3, rotPart v.vsrc2csrc_4x4 i j = if i = j then s j else 0)
    (hguard : v.user_system ≠ some (upperL v.src_system)) :
    (setSystem v v.src_system).2 = none ∧
      (setSystem v v.src_system).1.aligned_volume.eqv v.src_volume ∧
      (setSystem v v.src_system).1.vuser2cuser_4x4 = v.vsrc2csrc_4x4 := by
  have hmem := valid_mem_canonical v.src_system hsrc
  have hpm : permutation_matrix v.src_system (upperL v.src_system) =
      .ok ((1 : Mat3 ℤ), (1 : Mat3 ℤ)) := by
    rw [pm_upper_right, ← permutation_matrix_upperL]
    exact pm_self_canonical (upperL v.src_system) hmem
  have hfc : find_closest_permutation_matrix (rotPart v.vsrc2csrc_4x4) = 1 := by
    rw [rot_scaled_id v.vsrc2csrc_4x4 s hrot]
    exact find_closest_exact 1 signedB_one s hs
  have hX : homogeneous_matrix
      (((1 : Mat3 ℤ), (1 : Mat3 ℤ)).1 *
        find_closest_permutation_matrix (rotPart v.vsrc2csrc_4x4)) *
      offset (((1 : Mat3 ℤ), (1 : Mat3 ℤ)).1 *
        find_closest_permutation_matrix (rotPart v.vsrc2csrc_4x4))
        v.src_volume.shape = 1 := by
    show homogeneous_matrix (1 * find_closest_permutation_matrix (rotPart v.vsrc2csrc_4x4)) *
      offset (1 * find_closest_permutation_matrix (rotPart v.vsrc2csrc_4x4))
        v.src_volume.shape = 1
    rw [hfc, mul_one, homog_one, offset_one, mul_one]
  obtain ⟨al, hsw, heqv⟩ := swap_one_eqv v.src_volume
  have hsw' : swap v.src_volume (crop3 (homogeneous_matrix
      (((1 : Mat3 ℤ), (1 : Mat3 ℤ)).1 *
        find_closest_permutation_matrix (rotPart v.vsrc2csrc_4x4)) *
      offset (((1 : Mat3 ℤ), (1 : Mat3 ℤ)).1 *
        find_closest_permutation_matrix (rotPart v.vsrc2csrc_4x4))
        v.src_volume.shape)) = .ok al := by
    rw [hX, crop3_one]
    exact hsw
  have hinv : inv4 (homogeneous_matrix
      (((1 : Mat3 ℤ), (1 : Mat3 ℤ)).1 *
        find_closest_permutation_matrix (rotPart v.vsrc2csrc_4x4)) *
      offset (((1 : Mat3 ℤ), (1 : Mat3 ℤ)).1 *
        find_closest_permutation_matrix (rotPart v.vsrc2csrc_4x4))
        v.src_volume.shape) = some 1 := by
    rw [hX]
    exact inv4_one
  have hosc := onSystemChange_ok v (upperL v.src_system)
    ((1 : Mat3 ℤ), (1 : Mat3 ℤ)) hpm 1 hinv al hsw'
  have hset : setSystem v v.src_system = onSystemChange v (upperL v.src_system) := by
    show (if v.user_system = some (upperL v.src_system) then (v, none)
      else onSystemChange v (upperL v.src_system)) = _
    rw [if_neg hguard]
  rw [hset, hosc]
  refine ⟨rfl, ?_, ?_⟩
  · exact heqv
  · show transformation_for_new_voxel_alignment
      (transformation_for_new_coordinate_system v.vsrc2csrc_4x4
        ((1 : Mat3 ℤ), (1 : Mat3 ℤ)).1) 1 = v.vsrc2csrc_4x4
    rw [transformation_for_new_voxel_alignment,
      transformation_for_new_coordinate_system]
    show castM4 (homogeneous_matrix 1) * v.vsrc2csrc_4x4 * 1 = v.vsrc2csrc_4x4
    rw [homog_one, castM4_one, one_mul, mul_one]

/-- Column squared norms are nonnegative. -/
theorem colNormSq_nonneg (t : Mat3 ℚ) (j : Fin 3) : 0 ≤ colNormSq t j := by
  unfold colNormSq
  positivity

theorem colNormSq_zero_det (t : Mat3 ℚ) (j : Fin 3) (h : colNormSq t j = 0) :
    det3 t = 0 := by
  unfold colNormSq at h
  have h0 : t 0 j = 0 := by nlinarith [sq_nonneg (t 0 j), sq_nonneg (t 1 j), sq_nonneg (t 2 j)]
  have h1 : t 1 j = 0 := by nlinarith [sq_nonneg (t 0 j), sq_nonneg (t 1 j), sq_nonneg (t 2 j)]
  have h2 : t 2 j = 0 := by nlinarith [sq_nonneg (t 0 j), sq_nonneg (t 1 j), sq_nonneg (t 2 j)]
  have hj : j = 0 ∨ j = 1 ∨ j = 2 := by omega
  rcases hj with rfl | rfl | rfl <;> simp only [det3] <;>
    rw [h0, h1, h2] <;> ring

theorem det_close_iff (q0 q1 q2 d : ℚ) (h0 : 0 ≤ q0) (h1 : 0 ≤ q1) (h2 : 0 ≤ q2)
    (hz : q0 * q1 * q2 = 0 → d = 0) :
    (0 < q0 * q1 * q2 ∧
        ((1 : ℚ) - 1 / 1000 ≤ 0 ∨ ((1 : ℚ) - 1 / 1000) ^ 2 * (q0 * q1 * q2) ≤ d ^ 2) ∧
        d ^ 2 ≤ ((1 : ℚ) + 1 / 1000) ^ 2 * (q0 * q1 * q2)) ↔
      ((1 : ℝ) - 1 / 1000 ≤ |(d : ℝ)| /
          (Real.sqrt (q0 : ℝ) * Real.sqrt (q1 : ℝ) * Real.sqrt (q2 : ℝ)) ∧
        |(d : ℝ)| / (Real.sqrt (q0 : ℝ) * Real.sqrt (q1 : ℝ) * Real.sqrt (q2 : ℝ)) ≤
          (1 : ℝ) + 1 / 1000) := by
  have h0' : (0 : ℝ) ≤ (q0 : ℝ) := by exact_mod_cast h0
  have h1' : (0 : ℝ) ≤ (q1 : ℝ) := by exact_mod_cast h1
  have h2' : (0 : ℝ) ≤ (q2 : ℝ) := by exact_mod_cast h2
  have e1 : (((1 : ℚ) - 1 / 1000 : ℚ) : ℝ) = (1 : ℝ) - 1 / 1000 := by norm_num
  have e2 : (((1 : ℚ) + 1 / 1000 : ℚ) : ℝ) = (1 : ℝ) + 1 / 1000 := by norm_num
  set Q : ℝ := Real.sqrt (q0 : ℝ) * Real.sqrt (q1 : ℝ) * Real.sqrt (q2 : ℝ) with hQ
  have hQ0 : 0 ≤ Q := by positivity
  have hQsq : Q ^ 2 = ((q0 * q1 * q2 : ℚ) : ℝ) := by
    rw [hQ]
    push_cast
    rw [mul_pow, mul_pow, Real.sq_sqrt h0', Real.sq_sqrt h1', Real.sq_sqrt h2']
  rcases eq_or_lt_of_le (mul_nonneg (mul_nonneg h0 h1) h2) with hp0 | hpp
  · have hd : d = 0 := hz hp0.symm
    constructor
    · rintro ⟨hp, _, _⟩
      exact absurd hp0.symm (ne_of_gt hp)
    · rintro ⟨hlo, _⟩
      rw [hd] at hlo
      simp only [Rat.cast_zero, abs_zero, zero_div] at hlo
      norm_num at hlo
  · have hppR : (0 : ℝ) < ((q0 * q1 * q2 : ℚ) : ℝ) := by exact_mod_cast hpp
    have hQpos : 0 < Q := by
      rcases eq_or_lt_of_le hQ0 with h | h
      · exfalso
        have hz2 : ((q0 * q1 * q2 : ℚ) : ℝ) = 0 := by
          rw [← hQsq, ← h]
          norm_num
        rw [hz2] at hppR
        exact lt_irrefl _ hppR
      · exact h
    constructor
    · rintro ⟨hp, hlo, hhi⟩
      have hlo' : ((1 : ℚ) - 1 / 1000) ^ 2 * (q0 * q1 * q2) ≤ d ^ 2 := by
        rcases hlo with h | h
        · norm_num at h
        · exact h
      have hloR : ((1 : ℝ) - 1 / 1000) ^ 2 * ((q0 * q1 * q2 : ℚ) : ℝ) ≤ ((d : ℚ) : ℝ) ^ 2 := by
        rw [← e1]
        exact_mod_cast hlo'
      have hhiR : (((d : ℚ) : ℝ)) ^ 2 ≤ ((1 : ℝ) + 1 / 1000) ^ 2 * ((q0 * q1 * q2 : ℚ) : ℝ) := by
        rw [← e2]
        exact_mod_cast hhi
      constructor
      · rw [le_div_iff₀ hQpos]
        have habs : ((1 : ℝ) - 1 / 1000) * Q = Real.sqrt ((((1 : ℝ) - 1 / 1000) * Q) ^ 2) := by
          rw [Real.sqrt_sq (by positivity)]
        rw [habs, ← Real.sqrt_sq_eq_abs]
        apply Real.sqrt_le_sqrt
        rw [mul_pow, hQsq]
        exact hloR
      · rw [div_le_iff₀ hQpos]
        have habs : ((1 : ℝ) + 1 / 1000) * Q = Real.sqrt ((((1 : ℝ) + 1 / 1000) * Q) ^ 2) := by
          rw [Real.sqrt_sq (by positivity)]
        rw [habs, ← Real.sqrt_sq_eq_abs]
        apply Real.sqrt_le_sqrt
        rw [mul_pow, hQsq]
        exact hhiR
    · rintro ⟨hlo, hhi⟩
      rw [le_div_iff₀ hQpos] at hlo
      rw [div_le_iff₀ hQpos] at hhi
      refine ⟨hpp, Or.inr ?_, ?_⟩
      · have h3 : (((1 : ℝ) - 1 / 1000) * Q) ^ 2 ≤ |(d : ℝ)| ^ 2 :=
          pow_le_pow_left₀ (by positivity) hlo 2
        rw [mul_pow, hQsq, sq_abs, ← e1] at h3
        exact_mod_cast h3
      · have h3 : |(d : ℝ)| ^ 2 ≤ (((1 : ℝ) + 1 / 1000) * Q) ^ 2 :=
          pow_le_pow_left₀ (abs_nonneg _) hhi 2
        rw [mul_pow, hQsq, sq_abs, ← e2] at h3
        exact_mod_cast h3

/-- The squared-comparison encoding in `validate_transformation_matrix`
is equivalent to the spec's real-valued determinant-closeness condition. -/
theorem validate_transformation_iff (m : Mat4 ℚ) :
    validate_transformation_matrix m (1 / 1000) = true ↔
      SpecDetClose m ∧ SpecLastRow m ∧ SpecCorner m := by
  have hz : colNormSq (rotPart m) 0 * colNormSq (rotPart m) 1 *
      colNormSq (rotPart m) 2 = 0 → det3 (rotPart m) = 0 := by
    intro hz0
    rcases mul_eq_zero.mp hz0 with h | h
    · rcases mul_eq_zero.mp h with h' | h'
      · exact colNormSq_zero_det _ 0 h'
      · exact colNormSq_zero_det _ 1 h'
    · exact colNormSq_zero_det _ 2 h
  have hkey := det_close_iff (colNormSq (rotPart m) 0) (colNormSq (rotPart m) 1)
    (colNormSq (rotPart m) 2) (det3 (rotPart m))
    (colNormSq_nonneg _ 0) (colNormSq_nonneg _ 1) (colNormSq_nonneg _ 2) hz
  simp only [validate_transformation_matrix, SpecDetClose, SpecLastRow, SpecCorner,
    Bool.and_eq_true, Bool.or_eq_true, decide_eq_true_eq]
  constructor
  · rintro ⟨⟨⟨⟨hp, hlo⟩, hhi⟩, hrow⟩, hc⟩
    exact ⟨hkey.mp ⟨hp, hlo, hhi⟩, hrow, hc⟩
  · rintro ⟨hclose, hrow, hc⟩
    obtain ⟨hp, hlo, hhi⟩ := hkey.mpr hclose
    exact ⟨⟨⟨⟨hp, hlo⟩, hhi⟩, hrow⟩, hc⟩

/-- When the new (uppercased) label differs from the stored one, the `system` setter recomputes via `__on_system_change`. -/
theorem setSystem_ne {α : Type} (v : Volume α) (l : Label)
    (h : v.user_system ≠ some (upperL l)) :
    setSystem v l = onSystemChange v (upperL l) := by
  show (if v.user_system = some (upperL l) then (v, none)
      else onSystemChange v (upperL l)) = _
  rw [if_neg h]

/-- Setting an unparsable label: `permutation_matrix` raises `LabelError` after `__user_system` has already been overwritten, so the returned state differs from the input state exactly in `user_system`. -/
theorem setSystem_unparsable {α : Type} (v : Volume α) (l : Label)
    (hl : ParsableB l = false) (hg : v.user_system ≠ some (upperL l)) :
    setSystem v l =
      ({ v with user_system := some (upperL l) }, some Err.labelError) := by
  rw [setSystem_ne v l hg]
  have hpos : pos (upperL l) = none := by
    rw [pos_upperL]
    cases hp : pos l with
    | none => rfl
    | some x =>
      rw [ParsableB, hp] at hl
      exact absurd hl (by simp)
  have hpm : permutation_matrix v.src_system (upperL l) = .error .labelError :=
    pm_error_of_dst v.src_system (upperL l) (by rw [upperL_idem]; exact hpos)
  unfold onSystemChange
  simp only [hpm]

/-- Casting the identity matrix to the rationals gives the identity. -/
theorem castM3_one : castM3 (1 : Mat3 ℤ) = 1 := by
  funext i j
  by_cases h : i = j <;> simp [castM3, Matrix.one_apply, h]

/-- Casting to the rationals commutes with the 4x4 matrix product. -/
theorem castM4_mul (A B : Mat4 ℤ) : castM4 (A * B) = castM4 A * castM4 B := by
  funext i j
  simp only [castM4, Matrix.map_apply, Matrix.mul_apply]
  push_cast
  rfl

/-- The rotational part of the 4x4 identity is the 3x3 identity. -/
theorem rotPart_one : rotPart (1 : Mat4 ℚ) = 1 := by
  funext i j
  by_cases h : i = j <;>
    simp [rotPart, Matrix.one_apply, Fin.castSucc_inj, h]

/-- The greedy search returns a signed permutation matrix exactly when given its rational cast. -/
theorem find_closest_cast (P : Mat3 ℤ) (hP : IsSignedPermB P = true) :
    find_closest_permutation_matrix (castM3 P) = P := by
  have h : castM3 P = Matrix.of fun i j => (P i j : ℚ) * (fun _ : Fin 3 => (1 : ℚ)) j := by
    funext i j
    simp [castM3]
  rw [h]
  exact find_closest_exact P hP (fun _ => 1) (fun _ => by norm_num)

/-- A right inverse over the rationals is the `np.linalg.inv` result. -/
theorem inv4_of_right_inv (M : Mat4 ℤ) (N : Mat4 ℚ) (h : castM4 M * N = 1) :
    inv4 M = some N := by
  have hdet : (castM4 M).det ≠ 0 := by
    intro h0
    have hd := congrArg Matrix.det h
    rw [Matrix.det_mul, h0, zero_mul, Matrix.det_one] at hd
    exact zero_ne_one hd
  have hinv : (castM4 M)⁻¹ = N := Matrix.inv_eq_right_inv h
  unfold inv4
  rw [if_neg hdet]
  refine congrArg some ?_
  rw [← hinv, Matrix.inv_def, Ring.inverse_eq_inv]

/-- An integer involution is its own inverse under `inv4`. -/
theorem inv4_self_inv (X : Mat4 ℤ) (h : X * X = 1) : inv4 X = some (castM4 X) :=
  inv4_of_right_inv X (castM4 X) (by rw [← castM4_mul, h, castM4_one])

/-- A transformation whose rotational part is an exact signed permutation matrix and whose last row is canonical passes validation at tolerance 1e-3. -/
theorem validate_rot_signed (T : Mat4 ℚ) (P : Mat3 ℤ) (hP : IsSignedPermB P = true)
    (hrot : rotPart T = castM3 P) (hrow : SpecLastRow T) (hc : SpecCorner T) :
    validate_transformation_matrix T (1 / 1000) = true := by
  refine (validate_transformation_iff T).mpr ⟨?_, hrow, hc⟩
  obtain ⟨hent, hrowz, hcolz, hdet⟩ := signedB_parts P hP
  have hcolq : ∀ j : Fin 3, colNormSq (castM3 P) j = 1 := by
    intro j
    have h1 := colSq_one P j (hcolz j) hent
    simp only [colNormSq, castM3, Matrix.map_apply]
    exact_mod_cast h1
  have hdetc : det3 (castM3 P) = ((det3 P : ℤ) : ℚ) := by
    simp only [det3, castM3, Matrix.map_apply]
    push_cast
    ring
  unfold SpecDetClose
  rw [hrot, hcolq 0, hcolq 1, hcolq 2, hdetc]
  rcases hdet with hd | hd <;> rw [hd] <;> norm_num

/-- The identity transformation has a canonical last row. -/
theorem one_lastrow : SpecLastRow (1 : Mat4 ℚ) :=
  ⟨Matrix.one_apply_ne (by decide), Matrix.one_apply_ne (by decide),
    Matrix.one_apply_ne (by decide)⟩

/-- The identity transformation passes validation. -/
theorem validate_one : validate_transformation_matrix (1 : Mat4 ℚ) (1 / 1000) = true :=
  validate_rot_signed 1 1 signedB_one (by rw [rotPart_one, castM3_one]) one_lastrow
    (Matrix.one_apply_eq 3)

/-- The rotational part of `TswapM` is the axis swap `Pswap3`. -/
theorem rotPart_Tswap : rotPart TswapM = castM3 Pswap3 := by
  decide

/-- The `TswapM` transformation has a canonical last row. -/
theorem Tswap_lastrow : SpecLastRow TswapM := by
  refine ⟨?_, ?_, ?_⟩ <;> decide

/-- The `TswapM` transformation has corner entry 1. -/
theorem Tswap_corner : SpecCorner TswapM := by
  show TswapM 3 3 = 1
  decide

/-- The `TswapM` transformation passes validation. -/
theorem validate_Tswap : validate_transformation_matrix TswapM (1 / 1000) = true :=
  validate_rot_signed TswapM Pswap3 (by decide) rotPart_Tswap Tswap_lastrow Tswap_corner

/-- Unfolding of the constructor: validation, then the `system` setter on the blank state. -/
theorem mkVolume_def {α : Type} (arr : Arr3 α) (T : Mat4 ℚ) (ssys sys : Label) :
    mkVolume arr T ssys sys =
      (if validate_transformation_matrix T (1 / 1000) = false then
        .error .invalidMatrix
      else
        match setSystem (blankVolume arr T ssys) sys with
        | (v, none) => .ok v
        | (_, some e) => .error e) := rfl

/-- The successful path of the `system` setter, given the permutation-matrix result, the greedy rounding result, the voxel-transform inverse and the swapped array. -/
theorem setSystem_ok_explicit {α : Type} (v : Volume α) (sys : Label)
    (hg : v.user_system ≠ some (upperL sys))
    (p : Mat3 ℤ × Mat3 ℤ)
    (hpm : permutation_matrix v.src_system (upperL sys) = .ok p)
    (F : Mat3 ℤ)
    (hfc : find_closest_permutation_matrix (rotPart v.vsrc2csrc_4x4) = F)
    (iv : Mat4 ℚ)
    (hinv : inv4 (homogeneous_matrix (p.1 * F) *
      offset (p.1 * F) v.src_volume.shape) = some iv)
    (al : Arr3 α)
    (hsw : swap v.src_volume (crop3 (homogeneous_matrix (p.1 * F) *
      offset (p.1 * F) v.src_volume.shape)) = .ok al) :
    setSystem v sys =
      ({ v with
          user_system := some (upperL sys)
          vsrc2vuser_4x4 := homogeneous_matrix (p.1 * F) *
            offset (p.1 * F) v.src_volume.shape
          vuser2vsrc_4x4 := iv
          vsrc2cuser_4x4 :=
            transformation_for_new_coordinate_system v.vsrc2csrc_4x4 p.1
          vuser2cuser_4x4 := transformation_for_new_voxel_alignment
            (transformation_for_new_coordinate_system v.vsrc2csrc_4x4 p.1) iv
          src_spacing_sq := fun j => colNormSq (rotPart v.vsrc2csrc_4x4) j
          aligned_spacing_sq := fun j => colNormSq
            (rotPart (transformation_for_new_voxel_alignment
              (transformation_for_new_coordinate_system v.vsrc2csrc_4x4 p.1) iv)) j
          aligned_volume := al }, none) := by
  rw [setSystem_ne v sys hg]
  have hosc := onSystemChange_ok v (upperL sys) p hpm iv
    (by rw [hfc]; exact hinv) al (by rw [hfc]; exact hsw)
  rw [hosc, hfc]

/-- Field projections of the successful `system` setter path. -/
theorem setSystem_ok_fields {α : Type} (v : Volume α) (sys : Label)
    (hg : v.user_system ≠ some (upperL sys))
    (p : Mat3 ℤ × Mat3 ℤ)
    (hpm : permutation_matrix v.src_system (upperL sys) = .ok p)
    (F : Mat3 ℤ)
    (hfc : find_closest_permutation_matrix (rotPart v.vsrc2csrc_4x4) = F)
    (iv : Mat4 ℚ)
    (hinv : inv4 (homogeneous_matrix (p.1 * F) *
      offset (p.1 * F) v.src_volume.shape) = some iv)
    (al : Arr3 α)
    (hsw : swap v.src_volume (crop3 (homogeneous_matrix (p.1 * F) *
      offset (p.1 * F) v.src_volume.shape)) = .ok al) :
    (setSystem v sys).2 = none ∧
      (setSystem v sys).1.user_system = some (upperL sys) ∧
      (setSystem v sys).1.src_system = v.src_system ∧
      (setSystem v sys).1.vsrc2csrc_4x4 = v.vsrc2csrc_4x4 ∧
      (setSystem v sys).1.src_volume = v.src_volume ∧
      (setSystem v sys).1.aligned_volume = al ∧
      (setSystem v sys).1.vuser2cuser_4x4 = transformation_for_new_voxel_alignment
        (transformation_for_new_coordinate_system v.vsrc2csrc_4x4 p.1) iv := by
  rw [setSystem_ok_explicit v sys hg p hpm F hfc iv hinv al hsw]
  exact ⟨rfl, rfl, rfl, rfl, rfl, rfl, rfl⟩

/-- Field projections of a successfully constructed volume. -/
theorem mkVolume_ok_fields {α : Type} (arr : Arr3 α) (T : Mat4 ℚ) (ssys sys : Label)
    (hval : validate_transformation_matrix T (1 / 1000) = true)
    (p : Mat3 ℤ × Mat3 ℤ)
    (hpm : permutation_matrix ssys (upperL sys) = .ok p)
    (F : Mat3 ℤ)
    (hfc : find_closest_permutation_matrix (rotPart T) = F)
    (iv : Mat4 ℚ)
    (hinv : inv4 (homogeneous_matrix (p.1 * F) *
      offset (p.1 * F) arr.shape) = some iv)
    (al : Arr3 α)
    (hsw : swap arr (crop3 (homogeneous_matrix (p.1 * F) *
      offset (p.1 * F) arr.shape)) = .ok al) :
    ∃ v : Volume α, mkVolume arr T ssys sys = .ok v ∧
      v.user_system = some (upperL sys) ∧
      v.src_system = ssys ∧
      v.vsrc2csrc_4x4 = T ∧
      v.src_volume = arr ∧
      v.aligned_volume = al ∧
      v.vuser2cuser_4x4 = transformation_for_new_voxel_alignment
        (transformation_for_new_coordinate_system T p.1) iv := by
  have hg : (blankVolume arr T ssys).user_system ≠ some (upperL sys) := by
    simp [blankVolume]
  have hset := setSystem_ok_explicit (blankVolume arr T ssys) sys hg p hpm F hfc iv hinv al hsw
  have hmk : mkVolume arr T ssys sys = .ok
      ({ blankVolume arr T ssys with
          user_system := some (upperL sys)
          vsrc2vuser_4x4 := homogeneous_matrix (p.1 * F) *
            offset (p.1 * F) arr.shape
          vuser2vsrc_4x4 := iv
          vsrc2cuser_4x4 := transformation_for_new_coordinate_system T p.1
          vuser2cuser_4x4 := transformation_for_new_voxel_alignment
            (transformation_for_new_coordinate_system T p.1) iv
          src_spacing_sq := fun j => colNormSq (rotPart T) j
          aligned_spacing_sq := fun j => colNormSq
            (rotPart (transformation_for_new_voxel_alignment
              (transformation_for_new_coordinate_system T p.1) iv)) j
          aligned_volume := al }) := by
    have hvne : ¬ (validate_transformation_matrix T (1 / 1000) = false) := by
      rw [hval]
      simp
    rw [mkVolume_def, if_neg hvne, hset]
    rfl
  exact ⟨_, hmk, rfl, rfl, rfl, rfl, rfl, rfl⟩

/-- A successfully constructed volume stores the uppercased target label. -/
theorem mkVolume_ok_user {α : Type} (arr : Arr3 α) (T : Mat4 ℚ) (ssys sys : Label)
    (v0 : Volume α) (h : mkVolume arr T ssys sys = .ok v0) :
    v0.user_system = some (upperL sys) := by
  rw [mkVolume_def] at h
  by_cases hval : validate_transformation_matrix T (1 / 1000) = false
  · rw [if_pos hval] at h
    exact absurd h (by simp)
  · rw [if_neg hval] at h
    rcases hset : setSystem (blankVolume arr T ssys) sys with ⟨v1, e⟩
    rw [hset] at h
    cases e with
    | none =>
      have h' : Except.ok v1 = Except.ok v0 := h
      injection h' with h2
      have hu := setSystem_user (blankVolume arr T ssys) sys
      rw [hset] at hu
      rw [← h2]
      exact hu
    | some e' => exact absurd h (by simp)

/-- The greedy search maps the identity rotational part to the identity. -/
theorem find_closest_rot_one :
    find_closest_permutation_matrix (rotPart (1 : Mat4 ℚ)) = 1 := by
  rw [rotPart_one]
  have h := find_closest_cast 1 signedB_one
  rwa [castM3_one] at h

/-- On canonical labels, the forward matrix of `permutation_matrix` is `pmFst`. -/
theorem pm_map_fst (u w : Label) (hu : u ∈ canonical48) (hw : w ∈ canonical48) :
    (permutation_matrix u w).map Prod.fst = .ok (pmFst u w) := by
  obtain ⟨q, hq⟩ := except_exists_ok _ (pm_ok_canonical u w hu hw)
  rw [hq]
  simp [Except.map, pmFst, hq]

/-- On canonical labels, the forward matrix of `permutation_matrix` is a signed permutation matrix. -/
theorem pm_signed (u w : Label) (hu : u ∈ canonical48) (hw : w ∈ canonical48) :
    IsSignedPermB (pmFst u w) = true := by
  rw [pm_factor u hu w hw, mul3_eq_mul]
  exact signed_mul _ _ (pm_ras_facts w hw).1 (signedB_transpose _ (pm_ras_facts u hu).1)

/-- Transposing the forward matrix swaps the label arguments. -/
theorem pm_fst_transpose (u w : Label) (hu : u ∈ canonical48) (hw : w ∈ canonical48) :
    (pmFst u w).transpose = pmFst w u := by
  rw [pm_factor u hu w hw, pm_factor w hw u hu, mul3_eq_mul, mul3_eq_mul,
    Matrix.transpose_mul, Matrix.transpose_transpose]

/-- Composition of forward matrices over canonical labels. -/
theorem pm_compose_can (u w x : Label) (hu : u ∈ canonical48) (hw : w ∈ canonical48)
    (hx : x ∈ canonical48) : pmFst w x * pmFst u w = pmFst u x := by
  rw [pm_factor u hu w hw, pm_factor w hw x hx, pm_factor u hu x hx,
    mul3_eq_mul, mul3_eq_mul, mul3_eq_mul]
  have hw1 : (pmFst rasLabel w).transpose * pmFst rasLabel w = 1 := by
    have h := (pm_ras_facts w hw).2.1
    rwa [mul3_eq_mul] at h
  rw [Matrix.mul_assoc, ← Matrix.mul_assoc ((pmFst rasLabel w).transpose), hw1,
    Matrix.one_mul]

/-- Claim C1 (corrected): assigning an unparsable label to the `system` property fails with `LabelError`, but the instance is NOT left exactly as it was: `__user_system` has already been overwritten with the uppercased new label when `ac.permutation_matrix` raises, so the returned state is the old state with only `user_system` mutated. All other fields do keep their previous values. -/
theorem C1_amended {α : Type} (v : Volume α) (l : Label)
    (hl : ParsableB l = false) (hg : v.user_system ≠ some (upperL l)) :
    setSystem v l =
      ({ v with user_system := some (upperL l) }, some Err.labelError) :=
  setSystem_unparsable v l hl hg

/-- Witness for C1_amended at a concrete volume and the unparsable label "XYZ". -/
theorem C1_witness :
    (ParsableB ['X', 'Y', 'Z'] = false ∧
        vW.user_system ≠ some (upperL ['X', 'Y', 'Z'])) ∧
      setSystem vW ['X', 'Y', 'Z'] =
        ({ vW with user_system := some (upperL ['X', 'Y', 'Z']) },
          some Err.labelError) :=
  ⟨⟨by decide, by decide⟩, C1_amended vW ['X', 'Y', 'Z'] (by decide) (by decide)⟩

/-- Counterexample to claim C1 as stated: on a freshly constructed RAS volume, assigning "XYZ" raises `LabelError` yet `user_system` changes from RAS to XYZ, so the instance is not left unchanged. -/
theorem C1_counterexample :
    ParsableB ['X', 'Y', 'Z'] = false ∧
      ((mkVolume arrA (1 : Mat4 ℚ) rasLabel rasLabel).map fun v =>
          ((setSystem v ['X', 'Y', 'Z']).2,
            (setSystem v ['X', 'Y', 'Z']).1.user_system, v.user_system))
        = .ok (some Err.labelError, some ['X', 'Y', 'Z'], some ['R', 'A', 'S']) := by
  refine ⟨by decide, ?_⟩
  have hpm : permutation_matrix rasLabel (upperL rasLabel) =
      .ok ((1 : Mat3 ℤ), (1 : Mat3 ℤ)) := by decide
  have hX : homogeneous_matrix (((1 : Mat3 ℤ), (1 : Mat3 ℤ)).1 * 1) *
      offset (((1 : Mat3 ℤ), (1 : Mat3 ℤ)).1 * 1) arrA.shape = 1 := by decide
  have hinv : inv4 (homogeneous_matrix (((1 : Mat3 ℤ), (1 : Mat3 ℤ)).1 * 1) *
      offset (((1 : Mat3 ℤ), (1 : Mat3 ℤ)).1 * 1) arrA.shape) = some 1 := by
    rw [hX]
    exact inv4_one
  have hsw : swap arrA (crop3 (homogeneous_matrix (((1 : Mat3 ℤ), (1 : Mat3 ℤ)).1 * 1) *
      offset (((1 : Mat3 ℤ), (1 : Mat3 ℤ)).1 * 1) arrA.shape)) = .ok
      { shape := fun k => arrA.shape (sF 1 k)
        data := fun v => arrA.data fun j =>
          if eF 1 j = -1 then arrA.shape j - 1 - v (rF 1 j) else v (rF 1 j) } := by
    rw [hX, crop3_one]
    exact swap_signed arrA 1 signedB_one
  obtain ⟨V, hV, hu, _, _, _, _, _⟩ := mkVolume_ok_fields arrA 1 rasLabel rasLabel
    validate_one ((1 : Mat3 ℤ), (1 : Mat3 ℤ)) hpm 1 find_closest_rot_one 1 hinv _ hsw
  rw [hV]
  simp only [Except.map]
  have hu' : V.user_system = some rasLabel := by rw [hu]; decide
  rw [setSystem_unparsable V ['X', 'Y', 'Z'] (by decide) (by rw [hu']; decide), hu']
  show Except.ok (some Err.labelError, some (upperL ['X', 'Y', 'Z']), some rasLabel)
    = Except.ok (some Err.labelError, some ['X', 'Y', 'Z'], some ['R', 'A', 'S'])
  decide

/-- Claim C2 (confirmed): the LPS-to-RAS volume built from the (2,3,4) row-major array 0..23 with identity-scaled rotational part has an aligned array of shape (2,3,4) equal to the source reversed along axes 0 and 1 and unchanged along axis 2; the value originally at (0,0,0) (which is 0) appears at (1,2,0), and the value originally at (1,2,3) (which is 23) appears at (0,0,3). -/
theorem C2_scenario :
    srcArrC2.data ![0, 0, 0] = 0 ∧ srcArrC2.data ![1, 2, 3] = 23 ∧
      (mkVolume srcArrC2 (1 : Mat4 ℚ) ['L', 'P', 'S'] ['R', 'A', 'S']).map
        (fun v => (v.aligned_volume.shape 0, v.aligned_volume.shape 1,
          v.aligned_volume.shape 2, v.aligned_volume.eqvB expArrC2,
          v.aligned_volume.data ![1, 2, 0], v.aligned_volume.data ![0, 0, 3]))
      = .ok (2, 3, 4, true, 0, 23) := by
  refine ⟨by decide, by decide, ?_⟩
  have hpm : permutation_matrix ['L', 'P', 'S'] (upperL ['R', 'A', 'S']) =
      .ok (P1C2, P1C2.transpose) := by decide
  have hX : homogeneous_matrix ((P1C2, P1C2.transpose).1 * 1) *
      offset ((P1C2, P1C2.transpose).1 * 1) srcArrC2.shape = XC2 := by decide
  have hinv : inv4 (homogeneous_matrix ((P1C2, P1C2.transpose).1 * 1) *
      offset ((P1C2, P1C2.transpose).1 * 1) srcArrC2.shape) = some (castM4 XC2) := by
    rw [hX]
    exact inv4_self_inv XC2 (by decide)
  have hcrop : crop3 XC2 = P1C2 := by decide
  have hsw : swap srcArrC2 (crop3 (homogeneous_matrix ((P1C2, P1C2.transpose).1 * 1) *
      offset ((P1C2, P1C2.transpose).1 * 1) srcArrC2.shape)) = .ok
      { shape := fun k => srcArrC2.shape (sF P1C2 k)
        data := fun v => srcArrC2.data fun j =>
          if eF P1C2 j = -1 then srcArrC2.shape j - 1 - v (rF P1C2 j)
          else v (rF P1C2 j) } := by
    rw [hX, hcrop]
    exact swap_signed srcArrC2 P1C2 (by decide)
  obtain ⟨V, hV, _, _, _, _, hal, _⟩ := mkVolume_ok_fields srcArrC2 1 ['L', 'P', 'S']
    ['R', 'A', 'S'] validate_one (P1C2, P1C2.transpose) hpm 1 find_closest_rot_one
    (castM4 XC2) hinv _ hsw
  rw [hV]
  simp only [Except.map]
  rw [hal]
  decide

/-- Counterexample to claim C3 as stated: a volume whose rotational part is the (unscaled, hence positively scaled) signed permutation `Pswap3` is constructed with source label RAS and target ASR; setting the target back to RAS succeeds but the aligned array has shape beginning 1 while the source array has shape beginning 2, so alignedVoxels does not equal srcVoxels. -/
theorem C3_counterexample :
    (rotPart TswapM = castM3 Pswap3 ∧ IsSignedPermB Pswap3 = true) ∧
      ((mkVolume arrC3 TswapM rasLabel ['A', 'S', 'R']).map fun v =>
          ((setSystem v rasLabel).2,
            (setSystem v rasLabel).1.aligned_volume.shape 0,
            (setSystem v rasLabel).1.src_volume.shape 0))
        = .ok (none, 1, 2) := by
  refine ⟨⟨rotPart_Tswap, by decide⟩, ?_⟩
  have hfcT : find_closest_permutation_matrix (rotPart TswapM) = Pswap3 := by
    rw [rotPart_Tswap]
    exact find_closest_cast Pswap3 (by decide)
  have hpmA : permutation_matrix rasLabel (upperL ['A', 'S', 'R']) =
      .ok (PA3, PA3.transpose) := by decide
  have hXA : homogeneous_matrix ((PA3, PA3.transpose).1 * Pswap3) *
      offset ((PA3, PA3.transpose).1 * Pswap3) arrC3.shape = XA3 := by decide
  have hinvA : inv4 (homogeneous_matrix ((PA3, PA3.transpose).1 * Pswap3) *
      offset ((PA3, PA3.transpose).1 * Pswap3) arrC3.shape) = some (castM4 XA3) := by
    rw [hXA]
    exact inv4_self_inv XA3 (by decide)
  have hcropA : crop3 XA3 = QA3 := by decide
  have hswA : swap arrC3 (crop3 (homogeneous_matrix ((PA3, PA3.transpose).1 * Pswap3) *
      offset ((PA3, PA3.transpose).1 * Pswap3) arrC3.shape)) = .ok
      { shape := fun k => arrC3.shape (sF QA3 k)
        data := fun v => arrC3.data fun j =>
          if eF QA3 j = -1 then arrC3.shape j - 1 - v (rF QA3 j)
          else v (rF QA3 j) } := by
    rw [hXA, hcropA]
    exact swap_signed arrC3 QA3 (by decide)
  obtain ⟨V1, hV1, hu1, hs1, ht1, hv1, _, _⟩ := mkVolume_ok_fields arrC3 TswapM rasLabel
    ['A', 'S', 'R'] validate_Tswap (PA3, PA3.transpose) hpmA Pswap3 hfcT
    (castM4 XA3) hinvA _ hswA
  have hg2 : V1.user_system ≠ some (upperL rasLabel) := by
    rw [hu1]
    decide
  have hpm2 : permutation_matrix V1.src_system (upperL rasLabel) =
      .ok ((1 : Mat3 ℤ), (1 : Mat3 ℤ)) := by
    rw [hs1]
    decide
  have hfc2 : find_closest_permutation_matrix (rotPart V1.vsrc2csrc_4x4) = Pswap3 := by
    rw [ht1]
    exact hfcT
  have hXB : homogeneous_matrix (((1 : Mat3 ℤ), (1 : Mat3 ℤ)).1 * Pswap3) *
      offset (((1 : Mat3 ℤ), (1 : Mat3 ℤ)).1 * Pswap3) arrC3.shape = XB3 := by decide
  have hinv2 : inv4 (homogeneous_matrix (((1 : Mat3 ℤ), (1 : Mat3 ℤ)).1 * Pswap3) *
      offset (((1 : Mat3 ℤ), (1 : Mat3 ℤ)).1 * Pswap3) V1.src_volume.shape)
      = some (castM4 XB3) := by
    rw [hv1, hXB]
    exact inv4_self_inv XB3 (by decide)
  have hcropB : crop3 XB3 = Pswap3 := by decide
  have hsw2 : swap V1.src_volume (crop3 (homogeneous_matrix
      (((1 : Mat3 ℤ), (1 : Mat3 ℤ)).1 * Pswap3) *
      offset (((1 : Mat3 ℤ), (1 : Mat3 ℤ)).1 * Pswap3) V1.src_volume.shape)) = .ok
      { shape := fun k => arrC3.shape (sF Pswap3 k)
        data := fun v => arrC3.data fun j =>
          if eF Pswap3 j = -1 then arrC3.shape j - 1 - v (rF Pswap3 j)
          else v (rF Pswap3 j) } := by
    rw [hv1, hXB, hcropB]
    exact swap_signed arrC3 Pswap3 (by decide)
  obtain ⟨h2none, _, _, _, hsrc2, hal2, _⟩ := setSystem_ok_fields V1 rasLabel hg2
    ((1 : Mat3 ℤ), (1 : Mat3 ℤ)) hpm2 Pswap3 hfc2 (castM4 XB3) hinv2 _ hsw2
  rw [hV1]
  simp only [Except.map]
  rw [h2none, hal2, hsrc2, hv1]
  decide

/-- Claim C3 (corrected): the roundtrip property does hold when the rotational part of the source transformation is the identity scaled by positive per-column factors: setting the target label elsewhere and then back to the source label succeeds, makes the aligned array element-for-element equal to the source array, and restores the aligned transformation to the source transformation. -/
theorem C3_amended {α : Type} (v : Volume α) (mid : Label)
    (hsrc : validLabelB v.src_system = true)
    (hmid : upperL mid ≠ upperL v.src_system)
    (s : Fin 3 → ℚ) (hs : ∀ j : Fin 3, 0 < s j)
    (hrot : ∀ i j : Fin 3, rotPart v.vsrc2csrc_4x4 i j = if i = j then s j else 0) :
    (setSystem (setSystem v mid).1 v.src_system).2 = none ∧
      (setSystem (setSystem v mid).1 v.src_system).1.aligned_volume.eqv v.src_volume ∧
      (setSystem (setSystem v mid).1 v.src_system).1.vuser2cuser_4x4 =
        v.vsrc2csrc_4x4 := by
  obtain ⟨hs1, ht1, hv1⟩ := setSystem_src_fields v mid
  have hu1 := setSystem_user v mid
  have hrt := roundtrip_core (setSystem v mid).1
    (by rw [hs1]; exact hsrc) s hs
    (by intro i j; rw [ht1]; exact hrot i j)
    (by rw [hu1, hs1]; simpa using hmid)
  rw [← hs1, ← hv1, ← ht1]
  exact hrt

/-- Witness for C3_amended at a concrete identity-transform volume, via the intermediate label LPS. -/
theorem C3_witness :
    (validLabelB vW3.src_system = true ∧
        upperL ['L', 'P', 'S'] ≠ upperL vW3.src_system ∧
        (∀ j : Fin 3, (0 : ℚ) < (fun _ : Fin 3 => (1 : ℚ)) j) ∧
        (∀ i j : Fin 3, rotPart vW3.vsrc2csrc_4x4 i j =
          if i = j then (fun _ : Fin 3 => (1 : ℚ)) j else 0)) ∧
      ((setSystem (setSystem vW3 ['L', 'P', 'S']).1 vW3.src_system).2 = none ∧
        (setSystem (setSystem vW3 ['L', 'P', 'S']).1 vW3.src_system).1.aligned_volume.eqv
          vW3.src_volume ∧
        (setSystem (setSystem vW3 ['L', 'P', 'S']).1 vW3.src_system).1.vuser2cuser_4x4 =
          vW3.vsrc2csrc_4x4) :=
  ⟨⟨by decide, by decide, by decide, by decide⟩,
    C3_amended vW3 ['L', 'P', 'S'] (by decide) (by decide) (fun _ => 1) (by decide)
      (by decide)⟩

/-- Claim C4 (confirmed): for every 3-dimensional array and every signed permutation matrix P, the transpose of P is its two-sided matrix inverse, and `swap(swap(arr, P), transpose(P))` succeeds and equals `arr` element for element. -/
theorem C4_swap_roundtrip {α : Type} (arr : Arr3 α) (P : Mat3 ℤ)
    (hP : IsSignedPermB P = true) :
    (P * P.transpose = 1 ∧ P.transpose * P = 1) ∧
      ∃ b c : Arr3 α, swap arr P = .ok b ∧ swap b P.transpose = .ok c ∧ c.eqv arr :=
  ⟨signed_mul_transpose P hP, swap_roundtrip arr P hP⟩

/-- Witness for C4_swap_roundtrip at a concrete array and the axis-0/1 swap. -/
theorem C4_witness :
    IsSignedPermB Pswap3 = true ∧
      ((Pswap3 * Pswap3.transpose = 1 ∧ Pswap3.transpose * Pswap3 = 1) ∧
        ∃ b c : Arr3 ℕ, swap arrA Pswap3 = .ok b ∧
          swap b Pswap3.transpose = .ok c ∧ c.eqv arrA) :=
  ⟨by decide, C4_swap_roundtrip arrA Pswap3 (by decide)⟩

/-- Claim C5 (confirmed): `find_closest_permutation_matrix` applied to a signed permutation matrix whose columns are multiplied by strictly positive scale factors returns exactly that matrix. -/
theorem C5_find_closest_scaled (P : Mat3 ℤ) (hP : IsSignedPermB P = true)
    (s : Fin 3 → ℚ) (hs : ∀ j : Fin 3, 0 < s j) :
    find_closest_permutation_matrix (Matrix.of fun i j => (P i j : ℚ) * s j) = P :=
  find_closest_exact P hP s hs

/-- Witness for C5_find_closest_scaled at a concrete matrix and scales (2, 3, 5). -/
theorem C5_witness :
    (IsSignedPermB PW = true ∧ ∀ j : Fin 3, 0 < sW j) ∧
      find_closest_permutation_matrix (Matrix.of fun i j => (PW i j : ℚ) * sW j) = PW :=
  ⟨⟨by decide, by decide⟩, C5_find_closest_scaled PW (by decide) sW (by decide)⟩

/-- Claim C6 (confirmed): for every pair of valid anatomical labels, `permutation_matrix(A, B)` returns a pair `(M, M.transpose)` in which M is a valid signed permutation matrix, its transpose is its two-sided matrix inverse, and the first matrix of `permutation_matrix(B, A)` equals that transpose. -/
theorem C6_pm_pair (A B : Label) (hA : validLabelB A = true)
    (hB : validLabelB B = true) :
    ∃ M : Mat3 ℤ, permutation_matrix A B = .ok (M, M.transpose) ∧
      IsSignedPermB M = true ∧
      M * M.transpose = 1 ∧ M.transpose * M = 1 ∧
      (permutation_matrix B A).map Prod.fst = .ok M.transpose := by
  have hA' := valid_mem_canonical A hA
  have hB' := valid_mem_canonical B hB
  refine ⟨pmFst (upperL A) (upperL B), ?_, pm_signed _ _ hA' hB',
    (signed_mul_transpose _ (pm_signed _ _ hA' hB')).1,
    (signed_mul_transpose _ (pm_signed _ _ hA' hB')).2, ?_⟩
  · rw [← permutation_matrix_upperL]
    obtain ⟨q, hq⟩ := except_exists_ok _ (pm_ok_canonical (upperL A) (upperL B) hA' hB')
    obtain ⟨q1, q2⟩ := q
    have hq2 : q2 = q1.transpose := pm_snd _ _ _ hq
    have hq1 : pmFst (upperL A) (upperL B) = q1 := by simp [pmFst, hq]
    rw [hq, hq1, hq2]
  · rw [← permutation_matrix_upperL, pm_map_fst _ _ hB' hA',
      pm_fst_transpose _ _ hA' hB']

/-- Witness for C6_pm_pair at the labels LPS and RAS. -/
theorem C6_witness :
    (validLabelB ['L', 'P', 'S'] = true ∧ validLabelB ['R', 'A', 'S'] = true) ∧
      ∃ M : Mat3 ℤ,
        permutation_matrix ['L', 'P', 'S'] ['R', 'A', 'S'] = .ok (M, M.transpose) ∧
        IsSignedPermB M = true ∧
        M * M.transpose = 1 ∧ M.transpose * M = 1 ∧
        (permutation_matrix ['R', 'A', 'S'] ['L', 'P', 'S']).map Prod.fst =
          .ok M.transpose :=
  ⟨⟨by decide, by decide⟩,
    C6_pm_pair ['L', 'P', 'S'] ['R', 'A', 'S'] (by decide) (by decide)⟩

/-- Claim C7 (confirmed): for every triple of valid anatomical labels, the forward matrices compose: `permutationMatrix(B,C) * permutationMatrix(A,B) = permutationMatrix(A,C)`. -/
theorem C7_pm_compose (A B C : Label) (hA : validLabelB A = true)
    (hB : validLabelB B = true) (hC : validLabelB C = true) :
    ∃ MAB MBC MAC : Mat3 ℤ,
      (permutation_matrix A B).map Prod.fst = .ok MAB ∧
      (permutation_matrix B C).map Prod.fst = .ok MBC ∧
      (permutation_matrix A C).map Prod.fst = .ok MAC ∧
      MBC * MAB = MAC := by
  have hA' := valid_mem_canonical A hA
  have hB' := valid_mem_canonical B hB
  have hC' := valid_mem_canonical C hC
  refine ⟨pmFst (upperL A) (upperL B), pmFst (upperL B) (upperL C),
    pmFst (upperL A) (upperL C), ?_, ?_, ?_,
    pm_compose_can (upperL A) (upperL B) (upperL C) hA' hB' hC'⟩
  · rw [← permutation_matrix_upperL, pm_map_fst _ _ hA' hB']
  · rw [← permutation_matrix_upperL, pm_map_fst _ _ hB' hC']
  · rw [← permutation_matrix_upperL, pm_map_fst _ _ hA' hC']

/-- Witness for C7_pm_compose at the labels LPS, RAS, SAR. -/
theorem C7_witness :
    (validLabelB ['L', 'P', 'S'] = true ∧ validLabelB ['R', 'A', 'S'] = true ∧
        validLabelB ['S', 'A', 'R'] = true) ∧
      ∃ MAB MBC MAC : Mat3 ℤ,
        (permutation_matrix ['L', 'P', 'S'] ['R', 'A', 'S']).map Prod.fst = .ok MAB ∧
        (permutation_matrix ['R', 'A', 'S'] ['S', 'A', 'R']).map Prod.fst = .ok MBC ∧
        (permutation_matrix ['L', 'P', 'S'] ['S', 'A', 'R']).map Prod.fst = .ok MAC ∧
        MBC * MAB = MAC :=
  ⟨⟨by decide, by decide, by decide⟩,
    C7_pm_compose ['L', 'P', 'S'] ['R', 'A', 'S'] ['S', 'A', 'R'] (by decide)
      (by decide) (by decide)⟩

/-- Claim C8 (confirmed): `validate_transformation_matrix(m, 1e-3)` fails exactly when the column-normalized rotational determinant is not within 1e-3 of 1 in absolute value, or the first three entries of the bottom row are not exactly 0, or the corner entry is not exactly 1; in particular every matrix with bottom row (0,0,1,1) and every matrix with singular rotational part is rejected. -/
theorem C8_validate_iff (m : Mat4 ℚ) :
    (validate_transformation_matrix m (1 / 1000) = false ↔
        ¬(SpecDetClose m ∧ SpecLastRow m ∧ SpecCorner m)) ∧
      (m 3 0 = 0 ∧ m 3 1 = 0 ∧ m 3 2 = 1 ∧ m 3 3 = 1 →
        validate_transformation_matrix m (1 / 1000) = false) ∧
      (det3 (rotPart m) = 0 →
        validate_transformation_matrix m (1 / 1000) = false) := by
  have hne : validate_transformation_matrix m (1 / 1000) = false ↔
      ¬(SpecDetClose m ∧ SpecLastRow m ∧ SpecCorner m) :=
    Bool.eq_false_iff.trans (not_congr (validate_transformation_iff m))
  refine ⟨hne, fun hrow => ?_, fun hdet => ?_⟩
  · refine hne.mpr fun hc => ?_
    have h0 := hc.2.1.2.2
    rw [hrow.2.2.1] at h0
    exact one_ne_zero h0
  · refine hne.mpr fun hc => ?_
    have h1 := hc.1.1
    rw [hdet] at h1
    norm_num at h1

/-- Claim C9 (corrected): the `system` accessor is canonically uppercase after construction and after every assignment, but the `src_system` accessor returns the raw constructor argument, which keeps lowercase letters: `Volume.__init__` stores `src_system` without uppercasing. -/
theorem C9_amended {α : Type} (arr : Arr3 α) (T : Mat4 ℚ) (ssys sys l : Label) :
    (mkVolume arr T ssys sys).map (fun v => v.user_system)
        = (mkVolume arr T ssys sys).map (fun _ => some (upperL sys)) ∧
      ∀ v : Volume α, (setSystem v l).1.user_system = some (upperL l) := by
  refine ⟨?_, fun v => setSystem_user v l⟩
  cases hmk : mkVolume arr T ssys sys with
  | error e => rfl
  | ok v0 =>
    simp only [Except.map]
    rw [mkVolume_ok_user arr T ssys sys v0 hmk]

/-- Counterexample to claim C9 as stated: a volume constructed from lowercase "lps"/"ras" stores `src_system` still lowercase while `user_system` is uppercased. -/
theorem C9_counterexample :
    ((mkVolume arrA (1 : Mat4 ℚ) ['l', 'p', 's'] ['r', 'a', 's']).map fun v =>
        (v.src_system, v.user_system))
      = .ok (['l', 'p', 's'], some ['R', 'A', 'S']) := by
  have hpm : permutation_matrix ['l', 'p', 's'] (upperL ['r', 'a', 's']) =
      .ok (P1C2, P1C2.transpose) := by decide
  have hX : homogeneous_matrix ((P1C2, P1C2.transpose).1 * 1) *
      offset ((P1C2, P1C2.transpose).1 * 1) arrA.shape = XC9 := by decide
  have hinv : inv4 (homogeneous_matrix ((P1C2, P1C2.transpose).1 * 1) *
      offset ((P1C2, P1C2.transpose).1 * 1) arrA.shape) = some (castM4 XC9) := by
    rw [hX]
    exact inv4_self_inv XC9 (by decide)
  have hcrop : crop3 XC9 = P1C2 := by decide
  have hsw : swap arrA (crop3 (homogeneous_matrix ((P1C2, P1C2.transpose).1 * 1) *
      offset ((P1C2, P1C2.transpose).1 * 1) arrA.shape)) = .ok
      { shape := fun k => arrA.shape (sF P1C2 k)
        data := fun v => arrA.data fun j =>
          if eF P1C2 j = -1 then arrA.shape j - 1 - v (rF P1C2 j)
          else v (rF P1C2 j) } := by
    rw [hX, hcrop]
    exact swap_signed arrA P1C2 (by decide)
  obtain ⟨V, hV, hu, hs, _, _, _, _⟩ := mkVolume_ok_fields arrA 1 ['l', 'p', 's']
    ['r', 'a', 's'] validate_one (P1C2, P1C2.transpose) hpm 1 find_closest_rot_one
    (castM4 XC9) hinv _ hsw
  rw [hV]
  simp only [Except.map]
  rw [hs, hu]
  decide

/-- Claim C10 (corrected): `validate_permutation_matrix` does accept `badP` (it checks only the determinant and the entry range, not the one-nonzero-per-row-and-column invariant), and `badP` is not a signed permutation matrix; but `swap` does NOT accept it: the transpose step raises on the repeated axis, so `swap` fails with `TransposeError` on every array. -/
theorem C10_amended {α : Type} (arr : Arr3 α) :
    validate_permutation_matrix badP = true ∧
      IsSignedPermB badP = false ∧
      swap arr badP = .error Err.transposeError :=
  ⟨by decide, by decide, rfl⟩

/-- Counterexample to the last part of claim C10 as stated: `swap` applied to `badP` raises `TransposeError` instead of accepting it. -/
theorem C10_counterexample :
    validate_permutation_matrix badP = true ∧
      IsSignedPermB badP = false ∧
      swap arrA badP = .error Err.transposeError :=
  ⟨by decide, by decide, rfl⟩
